import Mathlib

/-!
Verification development for the tmux session/window state capture-and-restore
subsystem of the `dotfiles` repository.

The Python sources embedded here are:
  * `cli/app/command/tmux/utils.py`  (multiplexer adapter, tracked-process map)
  * `cli/app/command/tmux/models.py` (data model and JSON (de)serialization)
  * `cli/app/command/tmux/state.py`  (save / load engines)
  * `cli/app/command/tmux/claude.py` (tracked-map upsert performed by
    `claude-start` / `claude-resume`)

Python strings manipulated character-wise (splitting, stripping) are embedded
as `List Char`; strings that are only compared for equality are embedded as
`String`.  Fallible operations return `Option` or `Except`.  External
multiplexer behaviour (tmux) is embedded as a deterministic world model that
follows the adapter contract of the specification's section 6; each operation
carries a doc comment explaining which subprocess call it stands for.
-/

namespace Dotfiles

/-! ### Python string primitives over `List Char` -/

/-- Characters stripped by Python's `str.strip()` (ASCII whitespace set). -/
def isPySpace (c : Char) : Bool :=
  c == ' ' || c == '\t' || c == '\n' || c == '\r' || c == '\x0b' || c == '\x0c'

/-- Embedding of Python `str.strip()`: drop leading and trailing whitespace. -/
def pyStrip (l : List Char) : List Char :=
  ((l.dropWhile isPySpace).reverse.dropWhile isPySpace).reverse

/-- Split a character list on every occurrence of `sep`, like Python
`s.split(sep)` (so `"".split(c) = [""]`). -/
def splitOnChar (sep : Char) : List Char → List (List Char)
  | [] => [[]]
  | c :: rest =>
    let r := splitOnChar sep rest
    if c = sep then [] :: r
    else
      match r with
      | [] => [[c]]
      | h :: t => (c :: h) :: t

/-- Embedding of Python `str.splitlines()` for `'\n'`-separated text: split on
`'\n'` and drop the final empty fragment produced by a trailing newline. -/
def pySplitlines (l : List Char) : List (List Char) :=
  match (splitOnChar '\n' l).getLast? with
  | some [] => (splitOnChar '\n' l).dropLast
  | _ => splitOnChar '\n' l

/-- Join fragments with a separator character, like Python `sep.join(...)`. -/
def joinWith (sep : Char) : List (List Char) → List Char
  | [] => []
  | [x] => x
  | x :: y :: xs => x ++ sep :: joinWith sep (y :: xs)

/-- Split at the first occurrence of `sep`, returning the fragments before and
after it, or `none` when `sep` does not occur. -/
def breakAtChar (sep : Char) : List Char → Option (List Char × List Char)
  | [] => none
  | c :: rest =>
    if c = sep then some ([], rest)
    else (breakAtChar sep rest).map (fun ab => (c :: ab.1, ab.2))

/-- Embedding of Python `s.rsplit(sep, 2)`: split from the right at the last
two occurrences of `sep`, yielding at most three fragments. -/
def rsplit2 (sep : Char) (l : List Char) : List (List Char) :=
  match breakAtChar sep l.reverse with
  | none => [l]
  | some (u, r1) =>
    match breakAtChar sep r1 with
    | none => [r1.reverse, u.reverse]
    | some (p, r2) => [r2.reverse, p.reverse, u.reverse]

/-- Boolean test that `pre` is a literal leading segment of `l`; embeds
Python `str.startswith`. -/
def isPre : List Char → List Char → Bool
  | [], _ => true
  | _ :: _, [] => false
  | a :: as, b :: bs => a == b && isPre as bs

/-! ### Tracked-process map: `read_claude_map` (`utils.py` lines 79-105) -/

/-- Parse a single tracked-map line exactly as the loop body of
`read_claude_map` does: strip, drop blanks and `#`-comments, `rsplit(":", 2)`,
and require exactly three non-empty fields. -/
def parseClaudeLine (raw : List Char) : Option (List Char × List Char × List Char) :=
  let line := pyStrip raw
  if line = [] then none
  else if line.head? = some '#' then none
  else
    match rsplit2 ':' line with
    | [s, p, u] => if s = [] ∨ p = [] ∨ u = [] then none else some (s, p, u)
    | _ => none

/-- Embedding of `read_claude_map` (`utils.py` lines 79-105) applied to the
file content.  `none` stands for an unreadable file (missing, or the
`UnicodeDecodeError` branch), in which case the read returns the empty list. -/
def readClaudeMap (content : Option (List Char)) : List (List Char × List Char × List Char) :=
  match content with
  | none => []
  | some c => (pySplitlines c).filterMap parseClaudeLine

/-! ### Tracked-process map: upsert (`claude.py` lines 37-54 and 96-112) -/

/-- Raw line written for one tracked entry: `session:paneId:trackingId`. -/
def mkClaudeLine (session paneId trackingId : List Char) : List Char :=
  session ++ ':' :: paneId ++ ':' :: trackingId

/-- Removal prefix used by the upsert loop: `f"{session}:{pane_id}:"`. -/
def upsertPre (session paneId : List Char) : List Char :=
  session ++ ':' :: paneId ++ [':']

/-- Embedding of the upsert performed by `claude_start` / `claude_resume`
(`claude.py` lines 37-54): keep every non-blank prior line that does not start
with `session:paneId:`, then append the new line. -/
def upsertLines (prior : List (List Char)) (session paneId trackingId : List Char) :
    List (List Char) :=
  (prior.filter fun l => !(pyStrip l).isEmpty && !(isPre (upsertPre session paneId) l))
    ++ [mkClaudeLine session paneId trackingId]

/-- File content written by the upsert: lines joined by `'\n'` plus a final
newline (`"\n".join(lines) + "\n"`, `claude.py` line 53). -/
def writeLines (lines : List (List Char)) : List Char :=
  joinWith '\n' lines ++ ['\n']

/-- Lines recovered from an optional file content as the upsert code reads
them (`read_text().splitlines()`); `none` (missing or corrupted file) yields
the empty list, matching the `except` branch at `claude.py` lines 47-49. -/
def linesOfContent (content : Option (List Char)) : List (List Char) :=
  match content with
  | none => []
  | some c => pySplitlines c

/-- Whole-file embedding of one upsert: read the prior content, rewrite. -/
def upsertContent (content : Option (List Char)) (session paneId trackingId : List Char) :
    List Char :=
  writeLines (upsertLines (linesOfContent content) session paneId trackingId)

/-! ### Tracked-process map: `clean_claude_map` (`utils.py` lines 108-139) -/

/-- Live-pane key of a tracked entry, `f"{session}:{pane_id}"`. -/
def entryKey (e : List Char × List Char × List Char) : List Char :=
  e.1 ++ ':' :: e.2.1

/-- Line re-written for a kept entry, `f"{session}:{pane_id}:{uuid}"`. -/
def entryLine (e : List Char × List Char × List Char) : List Char :=
  e.1 ++ ':' :: e.2.1 ++ ':' :: e.2.2

/-- Set of live panes as built at `utils.py` lines 117-126: the stripped
non-blank lines of `tmux list-panes -a -F "#{session_name}:#{pane_id}"`.
`none` models the `CalledProcessError` branch (server unreachable), which
yields the empty set. -/
def livePaneSet (panes : Option (List (List Char))) : List (List Char) :=
  match panes with
  | none => []
  | some ps => ps.filterMap fun l => if pyStrip l = [] then none else some (pyStrip l)

/-- Embedding of `clean_claude_map` (`utils.py` lines 108-139) applied to the
already-parsed entries and the optional `list-panes` output.  Returns the
kept lines and the removed count. -/
def cleanClaudeMap (entries : List (List Char × List Char × List Char))
    (panes : Option (List (List Char))) : List (List Char) × Nat :=
  let existing := livePaneSet panes
  (((entries.filter fun e => decide (entryKey e ∈ existing)).map entryLine),
    entries.countP fun e => !decide (entryKey e ∈ existing))

/-! ### Multiplexer adapter: `list_windows_all` (`utils.py` lines 43-66) -/

/-- Value of a decimal digit character. -/
def digitVal (c : Char) : Nat := c.toNat - '0'.toNat

/-- Continue parsing Python integer digits after the first digit, allowing a
single underscore between digits (Python's numeric-literal rule for `int`). -/
def pyDigitsGo (acc : Nat) : List Char → Option Nat
  | [] => some acc
  | '_' :: c :: rest =>
    if c.isDigit then pyDigitsGo (acc * 10 + digitVal c) rest else none
  | ['_'] => none
  | c :: rest =>
    if c.isDigit then pyDigitsGo (acc * 10 + digitVal c) rest else none

/-- Parse a non-empty digit run (with Python's underscore rule). -/
def pyDigits : List Char → Option Nat
  | [] => none
  | c :: rest => if c.isDigit then pyDigitsGo (digitVal c) rest else none

/-- Embedding of Python `int(s)` on a decimal string: strip whitespace, accept
an optional sign, then digits; any other shape raises `ValueError`, embedded
as `none`. -/
def pyToInt (l : List Char) : Option Int :=
  match pyStrip l with
  | '+' :: ds => (pyDigits ds).map Int.ofNat
  | '-' :: ds => (pyDigits ds).map fun n => -(Int.ofNat n)
  | ds => (pyDigits ds).map Int.ofNat

/-- Parse one line of `tmux list-windows -a` output as the loop body of
`list_windows_all` does: skip blank lines, require exactly four tab-separated
fields, require a numeric index. -/
def parseWindowLine (line : List Char) :
    Option (List Char × Int × List Char × List Char) :=
  if pyStrip line = [] then none
  else
    match splitOnChar '\t' line with
    | [s, idxStr, n, p] => (pyToInt idxStr).map fun i => (s, i, n, p)
    | _ => none

/-- Loop body of `list_windows_all`: append the parsed row, or skip the line
(`continue`) when it is malformed. -/
def listWindowsAllStep (res : List (List Char × Int × List Char × List Char))
    (line : List Char) : List (List Char × Int × List Char × List Char) :=
  match parseWindowLine line with
  | some r => res ++ [r]
  | none => res

/-- Embedding of `list_windows_all` (`utils.py` lines 43-66) applied to the
raw multiplexer output: the accumulating loop with `continue` on malformed
lines. -/
def listWindowsAll (feed : List Char) : List (List Char × Int × List Char × List Char) :=
  (pySplitlines feed).foldl listWindowsAllStep []

/-! ### Data model (`models.py`) -/

/-- Embedding of the `Window` dataclass (`models.py` lines 8-15).  `ordinal`
is the zero-based occurrence count of `(name, path)` within the session and is
always a count in the source, so it is a `Nat` here. -/
structure Window where
  index : Int
  name : String
  path : String
  ordinal : Nat
deriving DecidableEq, Repr

/-- Embedding of the `Session` dataclass (`models.py` lines 18-23). -/
structure Session where
  name : String
  windows : List Window
deriving DecidableEq, Repr

/-- Embedding of the `ClaudeBinding` dataclass (`models.py` lines 26-34). -/
structure ClaudeBinding where
  session : String
  window_name : String
  path : String
  ordinal : Nat
  uuid : String
deriving DecidableEq, Repr

/-- Embedding of the `State` dataclass (`models.py` lines 37-45). -/
structure State where
  created_at : String
  sessions : List Session
  current_session : Option String
  current_window_index : Option Int
  claude : List ClaudeBinding
deriving DecidableEq, Repr

/-! ### JSON (de)serialization (`models.py` lines 47-66)

The Python code serializes with `json.dumps(dc.asdict(self))` and parses with
`json.loads`.  The `dumps`/`loads` pair belongs to the Python standard library
(external to the repository) and, on the value trees produced here, is the
identity on JSON values; the repository's own code is the mapping between
dataclasses and JSON value trees, which is embedded below on an inductive
`Json` type. -/

/-- JSON value trees as produced by `dc.asdict` + `json.dumps`.  Only the
constructors the snapshot schema uses are needed (`null`, strings, integers,
arrays, objects with ordered string keys). -/
inductive Json where
  | null : Json
  | str : String → Json
  | int : Int → Json
  | arr : List Json → Json
  | obj : List (String × Json) → Json

/-- Field lookup on a JSON object, like Python `dict` subscripting on the
parsed object; `none` when the value is not an object or the key is absent. -/
def jGet (j : Json) (k : String) : Option Json :=
  match j with
  | .obj kvs => kvs.lookup k
  | _ => none

/-- Serialization of a `Window`, following `dc.asdict` field order. -/
def Window.toJson (w : Window) : Json :=
  .obj [("index", .int w.index), ("name", .str w.name),
        ("path", .str w.path), ("ordinal", .int (Int.ofNat w.ordinal))]

/-- Deserialization of a `Window`: `Window(**w)` (`models.py` line 57) expects
exactly the four fields.  Shapes Python would turn into an exception or into
an ill-typed dataclass (wrong field set, non-integer index, negative ordinal)
fall outside this typed model and are embedded as `none`. -/
def Window.fromJson? (j : Json) : Option Window :=
  match j with
  | .obj kvs =>
    match kvs.lookup "index", kvs.lookup "name", kvs.lookup "path", kvs.lookup "ordinal" with
    | some (.int i), some (.str n), some (.str p), some (.int o) =>
      match o with
      | .ofNat oo => if kvs.length = 4 then some ⟨i, n, p, oo⟩ else none
      | .negSucc _ => none
    | _, _, _, _ => none
  | _ => none

/-- Serialization of a `Session`. -/
def Session.toJson (s : Session) : Json :=
  .obj [("name", .str s.name), ("windows", .arr (s.windows.map Window.toJson))]

/-- Deserialization of a `Session` (`models.py` lines 56-58): `s["name"]`
must be present, `s.get("windows", [])` defaults to the empty list. -/
def Session.fromJson? (j : Json) : Option Session :=
  match jGet j "name" with
  | some (.str n) =>
    match jGet j "windows" with
    | some (.arr ws) => (ws.mapM Window.fromJson?).map fun l => ⟨n, l⟩
    | none => some ⟨n, []⟩
    | _ => none
  | _ => none

/-- Serialization of a `ClaudeBinding`. -/
def ClaudeBinding.toJson (c : ClaudeBinding) : Json :=
  .obj [("session", .str c.session), ("window_name", .str c.window_name),
        ("path", .str c.path), ("ordinal", .int (Int.ofNat c.ordinal)),
        ("uuid", .str c.uuid)]

/-- Deserialization of a `ClaudeBinding`: `ClaudeBinding(**c)` expects exactly
the five fields. -/
def ClaudeBinding.fromJson? (j : Json) : Option ClaudeBinding :=
  match j with
  | .obj kvs =>
    match kvs.lookup "session", kvs.lookup "window_name", kvs.lookup "path",
        kvs.lookup "ordinal", kvs.lookup "uuid" with
    | some (.str s), some (.str n), some (.str p), some (.int o), some (.str u) =>
      match o with
      | .ofNat oo => if kvs.length = 5 then some ⟨s, n, p, oo, u⟩ else none
      | .negSucc _ => none
    | _, _, _, _, _ => none
  | _ => none

/-- Embedding of `State.to_json` (`models.py` lines 47-49) at the JSON-value
level, following `dc.asdict` field order. -/
def State.toJson (st : State) : Json :=
  .obj [("created_at", .str st.created_at),
        ("sessions", .arr (st.sessions.map Session.toJson)),
        ("current_session", match st.current_session with
                            | some s => .str s
                            | none => .null),
        ("current_window_index", match st.current_window_index with
                                 | some i => .int i
                                 | none => .null),
        ("claude", .arr (st.claude.map ClaudeBinding.toJson))]

/-- Embedding of `State.from_json` (`models.py` lines 51-66) at the
JSON-value level.  `obj.get(..., [])` defaults are kept; a `created_at` that
is absent or null would give the dataclass a `None` string, which the typed
model cannot represent and embeds as `none`. -/
def State.fromJson? (j : Json) : Option State :=
  match jGet j "created_at" with
  | some (.str ca) =>
    let sessJ := match jGet j "sessions" with
                 | some (.arr l) => some l
                 | none => some []
                 | _ => none
    let claudeJ := match jGet j "claude" with
                   | some (.arr l) => some l
                   | none => some []
                   | _ => none
    match sessJ, claudeJ with
    | some sl, some cl =>
      match sl.mapM Session.fromJson?, cl.mapM ClaudeBinding.fromJson? with
      | some sessions, some claude =>
        let cs := match jGet j "current_session" with
                  | some (.str s) => some (some s)
                  | some .null => some none
                  | none => some none
                  | _ => none
        let cw := match jGet j "current_window_index" with
                  | some (.int i) => some (some i)
                  | some .null => some none
                  | none => some none
                  | _ => none
        match cs, cw with
        | some c1, some c2 => some ⟨ca, sessions, c1, c2, claude⟩
        | _, _ => none
      | _, _ => none
    | _, _ => none
  | _ => none

/-! ### Live multiplexer world model

The save and load engines drive the multiplexer through the adapter contract
of the specification's section 4.1/6.  The adapter calls are embedded as
deterministic operations on a world value: one live window per pane (the
subsystem only addresses a window's single active pane), sessions with ordered
window lists, and a counter for fresh window ids.  Sorting on listing embeds
tmux's ascending-index output order. -/

/-- One live tmux window (with its active pane's id and its window id). -/
structure LiveWindow where
  index : Int
  name : String
  path : String
  paneId : String
  wid : String
deriving DecidableEq, Repr

/-- One live tmux session. -/
structure LiveSession where
  name : String
  windows : List LiveWindow
deriving DecidableEq, Repr

/-- The live multiplexer state; `nextId` feeds fresh `#{window_id}` values. -/
structure World where
  sessions : List LiveSession
  nextId : Nat
deriving DecidableEq, Repr

/-- Index comparison used for every `sorted(..., key=lambda w: w.index)` and
for tmux's own ascending-index listing order. -/
def wleL (a b : LiveWindow) : Prop := a.index ≤ b.index

instance : DecidableRel wleL := fun a b => inferInstanceAs (Decidable (a.index ≤ b.index))

instance : IsTotal LiveWindow wleL := ⟨fun a b => le_total a.index b.index⟩

instance : IsTrans LiveWindow wleL := ⟨fun _ _ _ h1 h2 => le_trans h1 h2⟩

/-- Index comparison on model `Window` values (`sorted(..., key=...index)`). -/
def wleS (a b : Window) : Prop := a.index ≤ b.index

instance : DecidableRel wleS := fun a b => inferInstanceAs (Decidable (a.index ≤ b.index))

instance : IsTotal Window wleS := ⟨fun a b => le_total a.index b.index⟩

instance : IsTrans Window wleS := ⟨fun _ _ _ h1 h2 => le_trans h1 h2⟩

/-- Embedding of `list_sessions` (`utils.py` lines 34-40) against the world:
all session names. -/
def listSessionsW (w : World) : List String := w.sessions.map (·.name)

/-- Embedding of `list_windows_all` (`utils.py` lines 43-66) against the
world: one `(session, index, name, path)` row per window, sessions in server
order, windows in ascending index order. -/
def listWindowsAllW (w : World) : List (String × Int × String × String) :=
  w.sessions.flatMap fun s =>
    (List.insertionSort wleL s.windows).map fun win => (s.name, win.index, win.name, win.path)

/-- Embedding of the `display-message -p -t pane_id` query of `save`
(`state.py` lines 59-66): resolve a pane id to its owning
`(session, window_name, path, window_index)`; `none` embeds the
`CalledProcessError` branch for a pane that no longer exists. -/
def resolvePane (w : World) (p : String) : Option (String × String × String × Int) :=
  w.sessions.findSome? fun s =>
    (s.windows.find? fun win => win.paneId == p).map fun win =>
      (s.name, win.name, win.path, win.index)

/-! ### Save engine (`state.py` lines 34-125) -/

/-- Ordinal-assignment key: `(session, name, path)` (`state.py` line 47). -/
abbrev OrdKey := String × String × String

/-- Key of one window-listing row. -/
def rowKey (r : String × Int × String × String) : OrdKey := (r.1, r.2.2.1, r.2.2.2)

/-- Embedding of the ordinal-assignment loop of `save` (`state.py` lines
44-50): walk the rows in listing order, give each window the current count of
its `(session, name, path)` key and bump the count. -/
def assignOrdinals (cnt : OrdKey → Nat) :
    List (String × Int × String × String) → List (String × Window)
  | [] => []
  | (s, idx, n, p) :: rest =>
    let c := cnt (s, n, p)
    (s, ⟨idx, n, p, c⟩) ::
      assignOrdinals (fun k => if k = (s, n, p) then c + 1 else cnt k) rest

/-- Per-session window list of `sess_map` after the loop at `state.py` lines
46-50: the windows appended for session `s`, in listing order. -/
def sessWindows (rows : List (String × Int × String × String)) (s : String) : List Window :=
  ((assignOrdinals (fun _ => 0) rows).filter fun e => e.1 == s).map (·.2)

/-- Embedding of the binding-ordinal loop of `save` (`state.py` lines 89-94):
walk the session's windows in ascending index order, stop at the pane's window
index, count the `(name, path)` matches before it. -/
def bindingOrdinalGo (wname wpath : String) (windex : Int) : List Window → Nat
  | [] => 0
  | w :: rest =>
    if w.index ≥ windex then 0
    else (if w.name == wname && w.path == wpath then 1 else 0)
      + bindingOrdinalGo wname wpath windex rest

/-- Binding ordinal for a resolved pane (`state.py` lines 88-94). -/
def bindingOrdinal (ws : List Window) (wname wpath : String) (windex : Int) : Nat :=
  bindingOrdinalGo wname wpath windex (List.insertionSort wleS ws)

/-- Embedding of one iteration of the binding loop of `save` (`state.py`
lines 57-103): resolve the pane, drop entries whose query fails or returns
empty fields, use the pane's actual session (`state.py` lines 85-87), and
compute the binding ordinal. -/
def resolveBinding (w : World) (rows : List (String × Int × String × String))
    (entry : String × String × String) : Option ClaudeBinding :=
  match resolvePane w entry.2.1 with
  | none => none
  | some (s2, wname, wpath, windex) =>
    if s2 = "" ∨ wname = "" ∨ wpath = "" then none
    else
      some ⟨s2, wname, wpath, bindingOrdinal (sessWindows rows s2) wname wpath windex,
            entry.2.2⟩

/-- Embedding of `save` (`state.py` lines 34-125) as the snapshot it writes:
`none` embeds the `sys.exit(1)` branch when no session is running.  The
tracked-map entries and the current-focus pair are the values `save` reads
from `read_claude_map()` and `current_session_and_window()`. -/
def saveState (w : World) (entries : List (String × String × String))
    (cur : Option String × Option Int) (now : String) : Option State :=
  let sessions := listSessionsW w
  if sessions = [] then none
  else
    let rows := listWindowsAllW w
    some
      { created_at := now
        sessions := sessions.map fun s =>
          ⟨s, List.insertionSort wleS (sessWindows rows s)⟩
        current_session := cur.1
        current_window_index := cur.2
        claude := entries.filterMap (resolveBinding w rows) }

/-! ### Load engine (`state.py` lines 128-206) -/

/-- Multiplexer commands issued by `load`, recorded as a trace.  Targets that
the Python code renders as `f"{session}:{index}"` are kept as pairs. -/
inductive Cmd where
  | newSessionC (name wname wpath : String)
  | renameWindowC (sess : String) (idx : Int) (newName : String)
  | sendCdC (sess : String) (idx : Int) (path : String)
  | newWindowC (sess wname wpath : String)
  | sendResumeC (wid : String) (uuid : String)
  | switchClientC (sess : String) (idx : Int)
  | attachSessionC (sess : String) (idx : Int)
deriving DecidableEq, Repr

/-- Embedding of `has-session -t name`. -/
def hasSessionW (w : World) (name : String) : Bool :=
  w.sessions.any (·.name == name)

/-- Fresh window id, rendered like tmux `#{window_id}`. -/
def widName (n : Nat) : String := "@" ++ toString n

/-- Embedding of `new-session -d -s name -n wname -c wpath`
(`utils.py` lines 148-160): a fresh session whose first window sits at the
base index 0. -/
def createSessionW (w : World) (name wname wpath : String) : World :=
  { sessions := w.sessions ++ [⟨name, [⟨0, wname, wpath, "", widName w.nextId⟩]⟩]
    nextId := w.nextId + 1 }

/-- Embedding of `create_session_if_needed` (`utils.py` lines 142-160),
also returning the trace of commands issued. -/
def createSessionIfNeeded (w : World) (name wname wpath : String) : World × List Cmd :=
  if hasSessionW w name then (w, [])
  else (createSessionW w name wname wpath, [.newSessionC name wname wpath])

/-- Embedding of `list-windows -t sess -F "#{window_index}"` (`state.py`
lines 153-157): ascending window indices, or `none` (`CalledProcessError`)
when the session does not exist. -/
def listWindowIndicesW (w : World) (sess : String) : Option (List Int) :=
  (w.sessions.find? (·.name == sess)).map fun s =>
    (List.insertionSort wleL s.windows).map (·.index)

/-- Embedding of `rename-window -t sess:idx newName`. -/
def renameWindowW (w : World) (sess : String) (idx : Int) (newName : String) : World :=
  { w with sessions := w.sessions.map fun s =>
      if s.name == sess then
        { s with windows := s.windows.map fun win =>
            if win.index == idx then { win with name := newName } else win }
      else s }

/-- Embedding of sending `cd <path>` keystrokes into `sess:idx`: the shell in
the window's pane changes directory, so the window's current path becomes
`path`. -/
def sendCdW (w : World) (sess : String) (idx : Int) (path : String) : World :=
  { w with sessions := w.sessions.map fun s =>
      if s.name == sess then
        { s with windows := s.windows.map fun win =>
            if win.index == idx then { win with path := path } else win }
      else s }

/-- Embedding of `window_id_for` (`utils.py` lines 163-173): the id of the
session's window at the given index, `none` if session or index is missing. -/
def windowIdForW (w : World) (sess : String) (idx : Int) : Option String :=
  (w.sessions.find? (·.name == sess)).bind fun s =>
    (s.windows.find? fun win => win.index == idx).map (·.wid)

/-- Largest window index of a session (`-1` when it has no windows); a new
window is created just past it. -/
def maxIdx (ws : List LiveWindow) : Int :=
  ws.foldl (fun a w => max a w.index) (-1)

/-- Embedding of `new_window_get_id` (`utils.py` lines 176-190): append a
window with a fresh id at the next free index; `none` embeds the
`CalledProcessError` the underlying `tmux new-window` raises when the session
does not exist (uncaught in `load`). -/
def newWindowW (w : World) (sess wname wpath : String) : Option (World × String) :=
  match w.sessions.find? (·.name == sess) with
  | none => none
  | some s =>
    let idx := 1 + maxIdx s.windows
    let wid := widName w.nextId
    some
      ({ sessions := w.sessions.map fun t =>
           if t.name == sess then
             { t with windows := t.windows ++ [⟨idx, wname, wpath, "", wid⟩] }
           else t
         nextId := w.nextId + 1 }, wid)

/-- Embedding of the `claude_map` dict built at `state.py` lines 139-141;
later list entries overwrite earlier ones, so lookup finds the last match. -/
def claudeLookup (cs : List ClaudeBinding) (s n p : String) (o : Nat) : Option String :=
  (cs.reverse.find? fun c =>
    c.session == s && c.window_name == n && c.path == p && c.ordinal == o).map (·.uuid)

/-- Embedding of the window loop of `load` (`state.py` lines 174-196).
`isFirst` is the negation of `first_window_processed`; `occ` is the
`occurrence` dict.  The error value embeds the uncaught Python exceptions on
this path: `send-keys` with a `None` window id (`wid` not found for the first
window) and `new-window` against a missing session. -/
def loadWindows (cm : String → String → String → Nat → Option String) (sessName : String)
    (occ : String × String → Nat) (isFirst : Bool) (w : World) :
    List Window → Except Unit (World × List Cmd)
  | [] => .ok (w, [])
  | win :: rest =>
    let step : Except Unit (World × Option String × List Cmd) :=
      if isFirst then .ok (w, windowIdForW w sessName win.index, [])
      else
        match newWindowW w sessName win.name win.path with
        | none => .error ()
        | some (w', wid) => .ok (w', some wid, [.newWindowC sessName win.name win.path])
    match step with
    | .error e => .error e
    | .ok (w', widO, tr) =>
      let o := occ (win.name, win.path)
      let occ' := fun k => if k = (win.name, win.path) then o + 1 else occ k
      match cm sessName win.name win.path o with
      | none =>
        match loadWindows cm sessName occ' false w' rest with
        | .error e => .error e
        | .ok (w'', tr') => .ok (w'', tr ++ tr')
      | some uuid =>
        match widO with
        | none => .error ()
        | some wid =>
          match loadWindows cm sessName occ' false w' rest with
          | .error e => .error e
          | .ok (w'', tr') => .ok (w'', tr ++ [.sendResumeC wid uuid] ++ tr')

/-- Embedding of the per-session body of `load` (`state.py` lines 146-196)
for a session whose recorded window list is non-empty: ensure the session
exists, reconcile its first live window, then run the window loop. -/
def loadSessionFull (cm : String → String → String → Nat → Option String)
    (sess : Session) (w : World) : Except Unit (World × List Cmd) :=
  match List.insertionSort wleS sess.windows with
  | [] => .ok (w, [])
  | first :: _ =>
    let wt := createSessionIfNeeded w sess.name first.name first.path
    let w1 := wt.1
    let reconciled : World × List Cmd :=
      match listWindowIndicesW w1 sess.name with
      | none => (w1, [])
      | some idxs =>
        match idxs.min? with
        | none => (w1, [])
        | some fi =>
          (sendCdW (renameWindowW w1 sess.name fi first.name) sess.name fi first.path,
           [.renameWindowC sess.name fi first.name, .sendCdC sess.name fi first.path])
    match loadWindows cm sess.name (fun _ => 0) true reconciled.1
        (List.insertionSort wleS sess.windows) with
    | .error e => .error e
    | .ok (w2, tr2) => .ok (w2, wt.2 ++ reconciled.2 ++ tr2)

/-- Embedding of the session loop of `load` (`state.py` lines 143-196):
sessions with an empty recorded window list are skipped (`continue`). -/
def loadSessionsGo (cm : String → String → String → Nat → Option String) :
    List Session → World → Except Unit (World × List Cmd)
  | [], w => .ok (w, [])
  | sess :: rest, w =>
    if sess.windows = [] then loadSessionsGo cm rest w
    else
      match loadSessionFull cm sess w with
      | .error e => .error e
      | .ok (w', tr) =>
        match loadSessionsGo cm rest w' with
        | .error e => .error e
        | .ok (w'', tr') => .ok (w'', tr ++ tr')

/-- Embedding of the focus-restore step of `load` (`state.py` lines 198-205):
when the snapshot recorded a current session and window, try `switch-client`,
and on failure `attach-session`.  Both calls go through `tmux_ok`, which
swallows failures, so the step only contributes trace; `switchOk` and
`attachOk` are the success oracles of the two calls, and `attachOk` cannot
influence anything because its result is discarded. -/
def focusCmds (cs : Option String) (cw : Option Int) (switchOk attachOk : Bool) : List Cmd :=
  match cs, cw with
  | some s, some i =>
    if switchOk then [.switchClientC s i]
    else
      match attachOk with
      | true => [.switchClientC s i, .attachSessionC s i]
      | false => [.switchClientC s i, .attachSessionC s i]
  | _, _ => []

/-- Embedding of `load` (`state.py` lines 128-206) applied to a deserialized
snapshot: run the session loop, then the focus-restore step. -/
def loadState (st : State) (w : World) (switchOk attachOk : Bool) :
    Except Unit (World × List Cmd) :=
  match loadSessionsGo (claudeLookup st.claude) st.sessions w with
  | .error e => .error e
  | .ok (w', tr) =>
    .ok (w', tr ++ focusCmds st.current_session st.current_window_index switchOk attachOk)

/-! ## Claim C10: sessions with an empty recorded window list are skipped -/

/-- C10: a recorded session whose window list is empty is skipped entirely by
the load session loop: running `load` with that session present is identical
(same world, same commands) to running it with the session removed, and
processing the empty session alone issues no command and leaves the world
unchanged. -/
theorem c10_empty_session_skipped (cm : String → String → String → Nat → Option String)
    (name : String) (pre post : List Session) (w : World) :
    loadSessionsGo cm (pre ++ (⟨name, []⟩ : Session) :: post) w
        = loadSessionsGo cm (pre ++ post) w
    ∧ loadSessionsGo cm [⟨name, []⟩] w = .ok (w, []) := by
  constructor
  · induction pre generalizing w with
    | nil => simp [loadSessionsGo]
    | cons sess rest ih =>
      simp only [List.cons_append, loadSessionsGo]
      by_cases h : sess.windows = []
      · simp only [if_pos h]
        exact ih w
      · simp only [if_neg h]
        cases loadSessionFull cm sess w with
        | error e => rfl
        | ok p =>
          obtain ⟨w', tr⟩ := p
          simp only [List.append_eq]
          rw [ih w']
  · simp [loadSessionsGo]

/-! ## Claim C8: focus restore with switch-client / attach-session fallback -/

/-- C8: whenever the snapshot recorded a current session and window and the
session loop of `load` succeeds, `load` still completes successfully for every
outcome of the two focus calls; it issues `switch-client` to the recorded
target, follows it with `attach-session` to the same target exactly when the
switch fails, and the outcome of `attach-session` cannot affect anything. -/
theorem c8_focus_fallback (st : State) (w : World) (s : String) (i : Int)
    (w' : World) (tr : List Cmd)
    (hs : st.current_session = some s) (hi : st.current_window_index = some i)
    (h : loadSessionsGo (claudeLookup st.claude) st.sessions w = .ok (w', tr)) :
    ∀ switchOk attachOk : Bool,
      loadState st w switchOk attachOk
        = .ok (w', tr ++ (if switchOk then [Cmd.switchClientC s i]
                          else [Cmd.switchClientC s i, Cmd.attachSessionC s i])) := by
  intro switchOk attachOk
  unfold loadState
  rw [h]
  unfold focusCmds
  rw [hs, hi]
  cases switchOk <;> cases attachOk <;> rfl

/-- Witness for C8 at the specification's example scenario: a snapshot whose
focus is `main:2`, a multiplexer not attached to any client (both focus calls
fail), and an empty session list; `load` completes and falls back from
`switch-client` to `attach-session`. -/
theorem c8_focus_fallback_witness :
    loadState ⟨"t", [], some "main", some 2, []⟩ ⟨[], 0⟩ false false
      = .ok (⟨[], 0⟩, [Cmd.switchClientC "main" 2, Cmd.attachSessionC "main" 2]) :=
  c8_focus_fallback ⟨"t", [], some "main", some 2, []⟩ ⟨[], 0⟩ "main" 2 ⟨[], 0⟩ []
    rfl rfl rfl false false

/-! ## Claim C4: garbage-collection correctness of `clean_claude_map` -/

/-- C4: `clean_claude_map` keeps exactly the entries whose `session:paneId`
key is in the live pane set and its removed count is the number of entries
whose key is absent; when every entry is live it removes nothing and rewrites
all entries; when the `list-panes` call fails (`panes = none`) every entry is
removed. -/
theorem c4_clean_stale (entries : List (List Char × List Char × List Char))
    (panes : Option (List (List Char))) :
    (cleanClaudeMap entries panes).1
        = (entries.filter fun e => decide (entryKey e ∈ livePaneSet panes)).map entryLine
    ∧ (cleanClaudeMap entries panes).2
        = (entries.filter fun e => !decide (entryKey e ∈ livePaneSet panes)).length
    ∧ ((∀ e ∈ entries, entryKey e ∈ livePaneSet panes) →
        (cleanClaudeMap entries panes).2 = 0
        ∧ (cleanClaudeMap entries panes).1 = entries.map entryLine)
    ∧ (panes = none →
        (cleanClaudeMap entries panes).2 = entries.length
        ∧ (cleanClaudeMap entries panes).1 = []) := by
  refine ⟨rfl, ?_, ?_, ?_⟩
  · simp [cleanClaudeMap, List.countP_eq_length_filter]
  · intro hlive
    constructor
    · simp only [cleanClaudeMap]
      rw [List.countP_eq_zero]
      intro e he
      simp [hlive e he]
    · simp only [cleanClaudeMap]
      rw [List.filter_eq_self.mpr]
      intro e he
      simp [hlive e he]
  · intro hnone
    subst hnone
    constructor
    · simp [cleanClaudeMap, livePaneSet, List.countP_eq_length_filter]
    · simp [cleanClaudeMap, livePaneSet]

/-- Witness for C4 at concrete inputs: with one live entry and one stale
entry the stale one is removed and the live one rewritten; with an
unreachable server both entries are removed. -/
theorem c4_clean_stale_witness :
    (cleanClaudeMap [("a".toList, "%1".toList, "u".toList)] none).2 = 1
    ∧ (cleanClaudeMap [("a".toList, "%1".toList, "u".toList)] none).1 = []
    ∧ (cleanClaudeMap [("a".toList, "%1".toList, "u".toList)]
        (some ["a:%1".toList])).2 = 0 := by
  refine ⟨?_, ?_, ?_⟩
  · exact ((c4_clean_stale [("a".toList, "%1".toList, "u".toList)] none).2.2.2 rfl).1
  · exact ((c4_clean_stale [("a".toList, "%1".toList, "u".toList)] none).2.2.2 rfl).2
  · exact ((c4_clean_stale [("a".toList, "%1".toList, "u".toList)]
      (some ["a:%1".toList])).2.2.1 (by decide)).1

/-! ## Claim C9: JSON serialization round trip -/

/-- Helper: mapping a faithful deserializer over a serialized list recovers
the list. -/
theorem mapM_option_id {α β : Type} (f : α → β) (g : β → Option α)
    (hfg : ∀ a, g (f a) = some a) : ∀ l : List α, (l.map f).mapM g = some l := by
  intro l
  induction l with
  | nil => rfl
  | cons x xs ih =>
    simp only [List.map_cons, List.mapM_cons, hfg, ih]
    rfl

/-- Helper: a serialized `Window` deserializes to itself. -/
theorem window_json_rt (w : Window) : Window.fromJson? (Window.toJson w) = some w := rfl

/-- Helper: a serialized `ClaudeBinding` deserializes to itself. -/
theorem binding_json_rt (c : ClaudeBinding) :
    ClaudeBinding.fromJson? (ClaudeBinding.toJson c) = some c := rfl

/-- Helper: a serialized `Session` deserializes to itself. -/
theorem session_json_rt (s : Session) : Session.fromJson? (Session.toJson s) = some s := by
  obtain ⟨n, ws⟩ := s
  have h1 : jGet (Session.toJson ⟨n, ws⟩) "name" = some (.str n) := rfl
  have h2 : jGet (Session.toJson ⟨n, ws⟩) "windows"
      = some (.arr (ws.map Window.toJson)) := rfl
  simp only [Session.fromJson?, h1, h2]
  rw [mapM_option_id Window.toJson Window.fromJson? window_json_rt ws]
  rfl

/-- C9: deserializing the serialization of any `State` yields an equal
`State`, all fields of every `Session`, `Window` and `ClaudeBinding`
preserved. -/
theorem c9_state_json_roundtrip (st : State) : State.fromJson? (State.toJson st) = some st := by
  obtain ⟨ca, sessions, cs, cw, claude⟩ := st
  have h1 : jGet (State.toJson ⟨ca, sessions, cs, cw, claude⟩) "created_at"
      = some (.str ca) := rfl
  have h2 : jGet (State.toJson ⟨ca, sessions, cs, cw, claude⟩) "sessions"
      = some (.arr (sessions.map Session.toJson)) := rfl
  have h3 : jGet (State.toJson ⟨ca, sessions, cs, cw, claude⟩) "claude"
      = some (.arr (claude.map ClaudeBinding.toJson)) := rfl
  simp only [State.fromJson?, h1, h2, h3]
  rw [mapM_option_id Session.toJson Session.fromJson? session_json_rt sessions]
  rw [mapM_option_id ClaudeBinding.toJson ClaudeBinding.fromJson? binding_json_rt claude]
  cases cs <;> cases cw <;> rfl

/-! ## Claim C7: malformed-input tolerance of `list_windows_all` -/

/-- Helper: the accumulating skip-on-malformed loop is `filterMap`. -/
theorem foldl_collect_eq_filterMap :
    ∀ (l : List (List Char)) (acc : List (List Char × Int × List Char × List Char)),
      l.foldl listWindowsAllStep acc = acc ++ l.filterMap parseWindowLine := by
  intro l
  induction l with
  | nil => simp
  | cons x xs ih =>
    intro acc
    cases h : parseWindowLine x <;> simp [listWindowsAllStep, List.filterMap_cons, h, ih]

/-- C7: `list_windows_all` is total on every feed (it is a Lean function) and
returns exactly the well-formed rows in input order: the result is the
`filterMap` of the per-line parser over the lines; every produced row comes
verbatim from a line with exactly four tab-separated fields whose index field
parses as an integer; a line with the wrong field count, or whose index field
is non-numeric, contributes nothing. -/
theorem c7_list_windows_all :
    (∀ feed, listWindowsAll feed = (pySplitlines feed).filterMap parseWindowLine)
    ∧ (∀ line s i n p, parseWindowLine line = some (s, i, n, p) →
        ∃ ds, splitOnChar '\t' line = [s, ds, n, p] ∧ pyToInt ds = some i)
    ∧ (∀ line, (splitOnChar '\t' line).length ≠ 4 → parseWindowLine line = none)
    ∧ (∀ line s ds n p, splitOnChar '\t' line = [s, ds, n, p] → pyToInt ds = none →
        parseWindowLine line = none) := by
  refine ⟨?_, ?_, ?_, ?_⟩
  · intro feed
    unfold listWindowsAll
    rw [foldl_collect_eq_filterMap]
    rfl
  · intro line s i n p h
    unfold parseWindowLine at h
    by_cases hb : pyStrip line = []
    · simp [hb] at h
    · rw [if_neg hb] at h
      rcases hsp : splitOnChar '\t' line with _ | ⟨a, _ | ⟨b, _ | ⟨c, _ | ⟨d, _ | e⟩⟩⟩⟩ <;>
        rw [hsp] at h
      · exact absurd h (by simp)
      · exact absurd h (by simp)
      · exact absurd h (by simp)
      · exact absurd h (by simp)
      · have h2 : Option.map (fun j => (a, j, c, d)) (pyToInt b) = some (s, i, n, p) := h
        cases hti : pyToInt b with
        | none => rw [hti] at h2; exact absurd h2 (by simp)
        | some v =>
          rw [hti] at h2
          simp only [Option.map_some', Option.some.injEq, Prod.mk.injEq] at h2
          obtain ⟨rfl, rfl, rfl, rfl⟩ := h2
          exact ⟨b, rfl, hti⟩
      · exact absurd h (by simp)
  · intro line hlen
    unfold parseWindowLine
    by_cases hb : pyStrip line = []
    · simp [hb]
    · rw [if_neg hb]
      rcases hsp : splitOnChar '\t' line with _ | ⟨a, _ | ⟨b, _ | ⟨c, _ | ⟨d, _ | e⟩⟩⟩⟩ <;>
        rw [hsp] at hlen <;>
        first
        | rfl
        | exact absurd (by simp) hlen
  · intro line s ds n p hsp hti
    unfold parseWindowLine
    by_cases hb : pyStrip line = []
    · simp [hb]
    · rw [if_neg hb, hsp]
      simp [hti]

/-- Witness for C7 at a concrete feed: a malformed five-field line and a
non-numeric index are skipped, leaving exactly the two well-formed rows. -/
theorem c7_list_windows_all_witness :
    listWindowsAll ("s\t0\tn\t/p\ns\tx\tn\t/p\na\tb\tc\td\te\ns\t1\tm\t/q\n".toList)
      = [("s".toList, 0, "n".toList, "/p".toList),
         ("s".toList, 1, "m".toList, "/q".toList)] := by
  rw [c7_list_windows_all.1 ("s\t0\tn\t/p\ns\tx\tn\t/p\na\tb\tc\td\te\ns\t1\tm\t/q\n".toList)]
  decide

/-! ## Claim C6: tracked-map parsing (`read_claude_map`) -/

/-- Helper: splitting at the first separator of `a ++ sep :: b` with `sep`
absent from `a` yields `(a, b)`. -/
theorem breakAtChar_append (sep : Char) (a b : List Char) (ha : sep ∉ a) :
    breakAtChar sep (a ++ sep :: b) = some (a, b) := by
  induction a with
  | nil => simp [breakAtChar]
  | cons c t ih =>
    have hcs : ¬c = sep := fun h => ha (h ▸ List.mem_cons_self c t)
    have ht : sep ∉ t := fun h => ha (List.mem_cons_of_mem c h)
    simp [breakAtChar, hcs, ih ht]

/-- Helper: `rsplit(":", 2)` of `s:p:u` with colon-free `p` and `u` recovers
the three fields, keeping every colon of `s` inside the first field. -/
theorem rsplit2_of_parts (s p u : List Char) (hp : ':' ∉ p) (hu : ':' ∉ u) :
    rsplit2 ':' (s ++ ':' :: p ++ ':' :: u) = [s, p, u] := by
  have hrev : (s ++ ':' :: p ++ ':' :: u).reverse
      = u.reverse ++ ':' :: (p.reverse ++ ':' :: s.reverse) := by
    simp [List.reverse_append]
  have hu' : ':' ∉ u.reverse := fun h => hu (List.mem_reverse.mp h)
  have hp' : ':' ∉ p.reverse := fun h => hp (List.mem_reverse.mp h)
  unfold rsplit2
  rw [hrev, breakAtChar_append ':' u.reverse _ hu']
  simp [breakAtChar_append ':' p.reverse s.reverse hp']

/-- Helper: stripping is the identity on a list whose first and last
characters are not whitespace. -/
theorem pyStrip_eq_self (l : List Char)
    (h1 : ∀ c, l.head? = some c → isPySpace c = false)
    (h2 : ∀ c, l.getLast? = some c → isPySpace c = false) :
    pyStrip l = l := by
  have hd : l.dropWhile isPySpace = l := by
    cases l with
    | nil => rfl
    | cons a t =>
      rw [List.dropWhile_cons, if_neg]
      simp [h1 a rfl]
  have hr : l.reverse.dropWhile isPySpace = l.reverse := by
    cases hrev : l.reverse with
    | nil => rfl
    | cons a t =>
      rw [List.dropWhile_cons, if_neg]
      have : l.getLast? = some a := by
        rw [List.getLast?_eq_head?_reverse, hrev]
        rfl
      simp [h2 a this]
  unfold pyStrip
  rw [hd, hr, List.reverse_reverse]

/-- C6: tracked-map reading behaviour.  An undecodable file yields the empty
list; the read is a per-line `filterMap`; blank lines and lines whose stripped
form starts with `#` are ignored; every parsed entry comes from
`rsplit(":", 2)` of the stripped line and has three non-empty fields; a line
whose right-split does not have exactly three fragments is discarded; and the
right-split preserves a session name containing `':'` verbatim in the first
field. -/
theorem c6_read_claude_map :
    readClaudeMap none = []
    ∧ (∀ c, readClaudeMap (some c) = (pySplitlines c).filterMap parseClaudeLine)
    ∧ (∀ l, pyStrip l = [] → parseClaudeLine l = none)
    ∧ (∀ l, (pyStrip l).head? = some '#' → parseClaudeLine l = none)
    ∧ (∀ l s p u, parseClaudeLine l = some (s, p, u) →
        rsplit2 ':' (pyStrip l) = [s, p, u] ∧ s ≠ [] ∧ p ≠ [] ∧ u ≠ [])
    ∧ (∀ l, (rsplit2 ':' (pyStrip l)).length ≠ 3 → parseClaudeLine l = none)
    ∧ (∀ s p u, ':' ∉ p → ':' ∉ u →
        rsplit2 ':' (s ++ ':' :: p ++ ':' :: u) = [s, p, u]) := by
  refine ⟨rfl, fun _ => rfl, ?_, ?_, ?_, ?_, rsplit2_of_parts⟩
  · intro l hb
    unfold parseClaudeLine
    simp [hb]
  · intro l hh
    unfold parseClaudeLine
    by_cases hb : pyStrip l = []
    · simp [hb]
    · rw [if_neg hb, if_pos hh]
  · intro l s p u h
    unfold parseClaudeLine at h
    by_cases hb : pyStrip l = []
    · simp [hb] at h
    · rw [if_neg hb] at h
      by_cases hh : (pyStrip l).head? = some '#'
      · rw [if_pos hh] at h
        exact absurd h (by simp)
      · rw [if_neg hh] at h
        rcases hsp : rsplit2 ':' (pyStrip l) with _ | ⟨a, _ | ⟨b, _ | ⟨c, _ | e⟩⟩⟩ <;>
          rw [hsp] at h
        · exact absurd h (by simp)
        · exact absurd h (by simp)
        · exact absurd h (by simp)
        · have h2 : (if a = [] ∨ b = [] ∨ c = [] then none else some (a, b, c))
              = some (s, p, u) := h
          by_cases he : a = [] ∨ b = [] ∨ c = []
          · rw [if_pos he] at h2
            exact absurd h2 (by simp)
          · rw [if_neg he] at h2
            simp only [Option.some.injEq, Prod.mk.injEq] at h2
            obtain ⟨rfl, rfl, rfl⟩ := h2
            push_neg at he
            exact ⟨rfl, he.1, he.2.1, he.2.2⟩
        · exact absurd h (by simp)
  · intro l hlen
    unfold parseClaudeLine
    by_cases hb : pyStrip l = []
    · simp [hb]
    · rw [if_neg hb]
      by_cases hh : (pyStrip l).head? = some '#'
      · rw [if_pos hh]
      · rw [if_neg hh]
        rcases hsp : rsplit2 ':' (pyStrip l) with _ | ⟨a, _ | ⟨b, _ | ⟨c, _ | e⟩⟩⟩ <;>
          rw [hsp] at hlen <;>
          first
          | rfl
          | exact absurd (by simp) hlen

/-- Witness for C6 at concrete inputs: the right-split keeps the colon inside
the session name `my:sess`, and a line of only whitespace is discarded. -/
theorem c6_read_claude_map_witness :
    rsplit2 ':' ("my:sess".toList ++ ':' :: "%1".toList ++ ':' :: "u7".toList)
      = ["my:sess".toList, "%1".toList, "u7".toList]
    ∧ parseClaudeLine "   ".toList = none := by
  constructor
  · exact c6_read_claude_map.2.2.2.2.2.2 "my:sess".toList "%1".toList "u7".toList
      (by decide) (by decide)
  · exact c6_read_claude_map.2.2.1 "   ".toList (by decide)

/-! ## Claim C2: ordinal uniqueness in every saved snapshot -/

/-- Helper: ordinal assignment preserves each row's session, index, name and
path; only the ordinal is added. -/
theorem assign_shape (rows : List (String × Int × String × String)) :
    ∀ cnt, (assignOrdinals cnt rows).map (fun e => (e.1, e.2.index, e.2.name, e.2.path))
      = rows := by
  induction rows with
  | nil => intro cnt; rfl
  | cons r rest ih =>
    intro cnt
    obtain ⟨s, idx, n, p⟩ := r
    simp only [assignOrdinals, List.map_cons, ih]

/-- Helper: the ordinals handed to the windows of one `(session, name, path)`
key are consecutive, starting at the key's running count. -/
theorem assign_ordinals_key (s n p : String) :
    ∀ (rows : List (String × Int × String × String)) (cnt : OrdKey → Nat),
      (((assignOrdinals cnt rows).filter fun e =>
          e.1 == s && (e.2.name == n && e.2.path == p)).map fun e => e.2.ordinal)
        = List.range' (cnt (s, n, p))
            (rows.countP fun r => r.1 == s && (r.2.2.1 == n && r.2.2.2 == p)) := by
  intro rows
  induction rows with
  | nil => intro cnt; rfl
  | cons r rest ih =>
    intro cnt
    obtain ⟨s0, idx0, n0, p0⟩ := r
    simp only [assignOrdinals]
    by_cases hk : s0 = s ∧ n0 = n ∧ p0 = p
    · obtain ⟨rfl, rfl, rfl⟩ := hk
      rw [List.filter_cons, if_pos (by simp)]
      rw [List.map_cons]
      rw [List.countP_cons_of_pos _ _ (by simp)]
      rw [List.range'_succ]
      congr 1
      rw [ih]
      congr 1
      simp
    · rw [List.filter_cons, if_neg (by simpa using fun a b c => hk ⟨a, b, c⟩)]
      rw [List.countP_cons_of_neg _ _ (by simpa using fun a b c => hk ⟨a, b, c⟩)]
      rw [ih]
      congr 1
      have : ¬((s, n, p) = (s0, n0, p0)) := by
        intro he
        exact hk ⟨(Prod.mk.injEq .. ▸ he).1.symm, congrArg (fun q => q.2.1) he |>.symm,
          congrArg (fun q => q.2.2) he |>.symm⟩
      simp [this]

/-- C2: in every `State` produced by `save`, for every session and every
`(name, path)` pair, the ordinals carried by that session's windows sharing
the pair are a permutation of `0 .. n-1` where `n` is the number of such
windows in the session. -/
theorem c2_ordinal_uniqueness (w : World) (entries : List (String × String × String))
    (cur : Option String × Option Int) (now : String) (st : State)
    (h : saveState w entries cur now = some st) :
    ∀ sess ∈ st.sessions, ∀ n p : String,
      ((sess.windows.filter fun win => win.name == n && win.path == p).map
          fun win => win.ordinal).Perm
        (List.range (sess.windows.countP fun win => win.name == n && win.path == p)) := by
  unfold saveState at h
  by_cases hs : listSessionsW w = []
  · rw [if_pos hs] at h
    exact absurd h (by simp)
  · rw [if_neg hs] at h
    simp only [Option.some.injEq] at h
    subst h
    intro sess hmem n p
    simp only [List.mem_map] at hmem
    obtain ⟨s, hsmem, rfl⟩ := hmem
    set rows := listWindowsAllW w with hrows
    set ws := sessWindows rows s with hws
    have hperm := List.perm_insertionSort wleS ws
    have hcnt : (List.insertionSort wleS ws).countP
        (fun win => win.name == n && win.path == p)
        = ws.countP (fun win => win.name == n && win.path == p) :=
      hperm.countP_eq _
    have hkey : ((ws.filter fun win => win.name == n && win.path == p).map
        fun win => win.ordinal)
        = List.range' 0 (rows.countP fun r => r.1 == s && (r.2.2.1 == n && r.2.2.2 == p)) := by
      rw [hws]
      unfold sessWindows
      rw [List.filter_map, List.filter_filter, List.map_map]
      have hpred : ∀ e : String × Window,
          (((fun win => win.name == n && win.path == p) ∘ (fun e : String × Window => e.2)) e
              && (e.1 == s))
            = (e.1 == s && (e.2.name == n && e.2.path == p)) := by
        intro e
        cases h1 : e.1 == s <;> cases h2 : e.2.name == n <;> cases h3 : e.2.path == p <;>
          simp [h1, h2, h3, Function.comp]
      rw [List.filter_congr fun e _ => hpred e]
      simpa [Function.comp] using assign_ordinals_key s n p rows (fun _ => 0)
    have hcnt2 : ws.countP (fun win => win.name == n && win.path == p)
        = rows.countP fun r => r.1 == s && (r.2.2.1 == n && r.2.2.2 == p) := by
      have := congrArg List.length hkey
      simpa [List.countP_eq_length_filter] using this
    refine ((hperm.filter _).map _).trans ?_
    rw [hkey, hcnt, hcnt2, List.range_eq_range']

/-- Witness for C2 at a concrete world: a session with two `editor` windows
at the same path and one other window; the `editor` ordinals are a
permutation of `range 2`. -/
theorem c2_ordinal_uniqueness_witness :
    ((([⟨0, "editor", "/repo", 0⟩, ⟨1, "editor", "/repo", 1⟩] : List Window).filter
        (fun win => win.name == "editor" && win.path == "/repo")).map
          (fun win => win.ordinal)).Perm
      (List.range (([⟨0, "editor", "/repo", 0⟩, ⟨1, "editor", "/repo", 1⟩] :
          List Window).countP
            (fun win => win.name == "editor" && win.path == "/repo"))) := by
  have h := c2_ordinal_uniqueness
    ⟨[⟨"main", [⟨0, "editor", "/repo", "%1", "@1"⟩, ⟨1, "editor", "/repo", "%2", "@2"⟩]⟩], 0⟩
    [] (none, none) "t"
    ⟨"t", [⟨"main", [⟨0, "editor", "/repo", 0⟩, ⟨1, "editor", "/repo", 1⟩]⟩],
      none, none, []⟩ rfl
  exact h ⟨"main", [⟨0, "editor", "/repo", 0⟩, ⟨1, "editor", "/repo", 1⟩]⟩
    (by decide) "editor" "/repo"

/-! ## Claim C3: binding ordinal versus window ordinal -/

/-- Helper: the ordinals of assignment are preserved by restricting to one
session, provided the counters agree on that session's keys. -/
theorem assign_session_filter (s : String) :
    ∀ (rows : List (String × Int × String × String)) (f g : OrdKey → Nat),
      (∀ n p, f (s, n, p) = g (s, n, p)) →
      ((assignOrdinals f rows).filter fun e => e.1 == s)
        = assignOrdinals g (rows.filter fun r => r.1 == s) := by
  intro rows
  induction rows with
  | nil => intro f g _; rfl
  | cons r rest ih =>
    intro f g hfg
    obtain ⟨s0, idx0, n0, p0⟩ := r
    by_cases hs : s0 = s
    · subst hs
      simp only [assignOrdinals, List.filter_cons]
      rw [if_pos (by simp), if_pos (by simp)]
      simp only [assignOrdinals]
      rw [hfg n0 p0]
      congr 1
      apply ih
      intro n p
      by_cases hk : (s0, n, p) = (s0, n0, p0)
      · rw [if_pos hk, if_pos hk]
      · rw [if_neg hk, if_neg hk, hfg n p]
    · simp only [assignOrdinals, List.filter_cons]
      rw [if_neg (by simpa using hs), if_neg (by simpa using hs)]
      apply ih
      intro n p
      have hk : ¬((s, n, p) = (s0, n0, p0)) := by
        intro he
        exact hs ((Prod.mk.injEq .. ▸ he).1.symm)
      rw [if_neg hk, hfg n p]

/-- Helper: the window indices produced by ordinal assignment are the row
indices. -/
theorem assign_indices (l : List (String × Int × String × String)) (cnt : OrdKey → Nat) :
    (assignOrdinals cnt l).map (fun e => e.2.index) = l.map fun r => r.2.1 := by
  have h := congrArg (List.map fun q : String × Int × String × String => q.2.1)
    (assign_shape l cnt)
  simpa [List.map_map, Function.comp] using h

/-- Helper: on a single-session row list with strictly ascending indices, the
count-smaller-indices loop of the binding resolver recovers each window's
assigned ordinal (shifted by the incoming counter). -/
theorem binding_go_eq (n p : String) :
    ∀ (l : List (String × Int × String × String)) (cnt : OrdKey → Nat) (s : String),
      (∀ r ∈ l, r.1 = s) →
      ((l.map fun r => r.2.1).Pairwise (· < ·)) →
      ∀ win : Window, (s, win) ∈ assignOrdinals cnt l → win.name = n → win.path = p →
        bindingOrdinalGo n p win.index ((assignOrdinals cnt l).map fun e => e.2)
            + cnt (s, n, p)
          = win.ordinal := by
  intro l
  induction l with
  | nil =>
    intro cnt s _ _ win hmem
    simp [assignOrdinals] at hmem
  | cons r rest ih =>
    intro cnt s hsess hasc win hmem hn hp
    obtain ⟨s0, idx0, n0, p0⟩ := r
    have hs0 : s0 = s := hsess _ (List.mem_cons_self _ _)
    subst hs0
    simp only [assignOrdinals, List.map_cons, List.mem_cons] at hmem ⊢
    rcases hmem with hhead | htail
    · have hw : win = ⟨idx0, n0, p0, cnt (s0, n0, p0)⟩ := by
        have := congrArg (fun q : String × Window => q.2) hhead
        simpa using this
      subst hw
      rw [bindingOrdinalGo]
      rw [if_pos (le_refl _)]
      have hn0 : n0 = n := hn
      have hp0 : p0 = p := hp
      subst hn0; subst hp0
      simp
    · have hidxmem : win.index ∈ rest.map fun r => r.2.1 := by
        have h1 := List.mem_map_of_mem (fun e : String × Window => e.2.index) htail
        rwa [assign_indices] at h1
      have hlt : idx0 < win.index := by
        have := (List.pairwise_cons.mp hasc).1
        exact this _ hidxmem
      rw [bindingOrdinalGo]
      rw [if_neg (by simpa using hlt.not_le)]
      have hrec := ih _ s0 (fun r hr => hsess r (List.mem_cons_of_mem _ hr))
        (List.pairwise_cons.mp hasc).2 win htail hn hp
      by_cases hk : n0 = n ∧ p0 = p
      · obtain ⟨rfl, rfl⟩ := hk
        rw [if_pos (by simp)]
        rw [if_pos rfl] at hrec
        omega
      · rw [if_neg (by simpa using fun a b => hk ⟨a, b⟩)]
        rw [if_neg (by
          intro he
          exact hk ⟨(congrArg (fun q : OrdKey => q.2.1) he).symm,
            (congrArg (fun q : OrdKey => q.2.2) he).symm⟩)] at hrec
        omega

/-- C3 counterexample: on the listing `[("s",2,"n","p"), ("s",1,"n","p")]`,
whose rows are not in ascending index order, `save` assigns ordinal `0` to the
window at index `2` (first in listing order), but the binding-ordinal loop for
a pane in that window computes `1`: the recorded binding ordinal differs from
the ordinal the owning window carries. -/
theorem c3_counterexample :
    assignOrdinals (fun _ => 0) [("s", 2, "n", "p"), ("s", 1, "n", "p")]
      = [("s", ⟨2, "n", "p", 0⟩), ("s", ⟨1, "n", "p", 1⟩)]
    ∧ bindingOrdinal (sessWindows [("s", 2, "n", "p"), ("s", 1, "n", "p")] "s")
        "n" "p" 2 = 1 := by
  constructor
  · rfl
  · rfl

/-- C3 (amended): when the window-listing rows of the pane's session appear in
strictly ascending index order — as tmux emits them — the binding ordinal
computed for a resolved pane equals the ordinal assigned to the pane's owning
window. -/
theorem c3_binding_ordinal (rows : List (String × Int × String × String))
    (s2 wname wpath : String) (windex : Int)
    (hasc : ((rows.filter fun r => r.1 == s2).map fun r => r.2.1).Pairwise (· < ·))
    (win : Window) (hmem : win ∈ sessWindows rows s2)
    (hn : win.name = wname) (hp : win.path = wpath) (hi : win.index = windex) :
    bindingOrdinal (sessWindows rows s2) wname wpath windex = win.ordinal := by
  have hsf := assign_session_filter s2 rows (fun _ => 0) (fun _ => 0) (fun _ _ => rfl)
  unfold sessWindows at hmem ⊢
  rw [hsf] at hmem ⊢
  have hsess : ∀ r ∈ rows.filter (fun r => r.1 == s2), r.1 = s2 := by
    intro r hr
    have := (List.mem_filter.mp hr).2
    simpa using this
  obtain ⟨e, hemem, he⟩ := List.mem_map.mp hmem
  have he1 : e.1 = s2 := by
    have hq := List.mem_map_of_mem
      (fun e : String × Window => (e.1, e.2.index, e.2.name, e.2.path)) hemem
    rw [assign_shape] at hq
    exact hsess _ hq
  have hmem2 : (s2, win) ∈ assignOrdinals (fun _ => 0)
      (rows.filter fun r => r.1 == s2) := by
    have : (s2, win) = e := by
      obtain ⟨e1, e2⟩ := e
      simp only at he he1
      rw [he, he1]
    rw [this]
    exact hemem
  have hidx : (assignOrdinals (fun _ => 0) (rows.filter fun r => r.1 == s2)).map
      (fun e => e.2.index) = (rows.filter fun r => r.1 == s2).map fun r => r.2.1 :=
    assign_indices _ _
  have hpw : ((assignOrdinals (fun _ => 0) (rows.filter fun r => r.1 == s2)).map
      (fun e => e.2.index)).Pairwise (· < ·) := by rw [hidx]; exact hasc
  rw [List.pairwise_map] at hpw
  have hsort : List.Sorted wleS ((assignOrdinals (fun _ => 0)
      (rows.filter fun r => r.1 == s2)).map fun e => e.2) := by
    rw [List.Sorted, List.pairwise_map]
    exact hpw.imp (fun h => le_of_lt h)
  unfold bindingOrdinal
  rw [List.Sorted.insertionSort_eq hsort]
  have hgo := binding_go_eq wname wpath (rows.filter fun r => r.1 == s2)
    (fun _ => 0) s2 hsess hasc win hmem2 hn hp
  rw [hi] at hgo
  simpa using hgo

/-- Witness for the amended C3 at a concrete ascending listing: the window at
index `2` carries ordinal `1` and the binding-ordinal loop computes `1`. -/
theorem c3_binding_ordinal_witness :
    bindingOrdinal (sessWindows [("s", 1, "n", "p"), ("s", 2, "n", "p")] "s")
      "n" "p" 2 = (⟨2, "n", "p", 1⟩ : Window).ordinal :=
  c3_binding_ordinal [("s", 1, "n", "p"), ("s", 2, "n", "p")] "s" "n" "p" 2
    (by decide) ⟨2, "n", "p", 1⟩ (by decide) rfl rfl rfl

/-! ## Claim C5: upsert idempotence on the tracked-process map -/

/-- Helper: fragments produced by splitting never contain the separator. -/
theorem splitOnChar_mem_not_sep (sep : Char) :
    ∀ (s : List Char), ∀ l ∈ splitOnChar sep s, sep ∉ l := by
  intro s
  induction s with
  | nil =>
    intro l hl
    simp only [splitOnChar, List.mem_singleton] at hl
    subst hl
    exact List.not_mem_nil sep
  | cons c rest ih =>
    intro l hl
    simp only [splitOnChar] at hl
    by_cases hc : c = sep
    · rw [if_pos hc] at hl
      rcases List.mem_cons.mp hl with rfl | hl2
      · exact List.not_mem_nil sep
      · exact ih l hl2
    · rw [if_neg hc] at hl
      cases hr : splitOnChar sep rest with
      | nil =>
        rw [hr] at hl
        simp only [List.mem_singleton] at hl
        subst hl
        intro hmem
        rcases List.mem_cons.mp hmem with rfl | h2
        · exact hc rfl
        · exact List.not_mem_nil sep h2
      | cons h t =>
        rw [hr] at hl
        rcases List.mem_cons.mp hl with rfl | hl2
        · intro hmem
          rcases List.mem_cons.mp hmem with hcs | h2
          · exact hc hcs.symm
          · exact ih h (hr ▸ List.mem_cons_self h t) h2
        · exact ih l (hr ▸ List.mem_cons_of_mem h hl2)

/-- Helper: lines produced by `splitlines` contain no newline. -/
theorem pySplitlines_mem_no_newline (s : List Char) :
    ∀ l ∈ pySplitlines s, '\n' ∉ l := by
  intro l hl
  refine splitOnChar_mem_not_sep '\n' s l ?_
  unfold pySplitlines at hl
  split at hl
  · exact List.dropLast_subset _ hl
  · exact hl

/-- Helper: splitting `a ++ sep :: b` with `sep` absent from `a` peels `a`. -/
theorem splitOnChar_append_sep (sep : Char) (a b : List Char) (ha : sep ∉ a) :
    splitOnChar sep (a ++ sep :: b) = a :: splitOnChar sep b := by
  induction a with
  | nil => simp [splitOnChar]
  | cons c t ih =>
    have hc : ¬c = sep := fun h => ha (h ▸ List.mem_cons_self c t)
    have ht : sep ∉ t := fun h => ha (List.mem_cons_of_mem c h)
    simp only [List.cons_append, splitOnChar, List.append_eq, ih ht]
    rw [if_neg hc]

/-- Helper: splitting a newline-joined, newline-terminated, non-empty line
list recovers the lines plus one final empty fragment. -/
theorem splitOnChar_join_newline :
    ∀ (rest : List (List Char)) (x : List Char), '\n' ∉ x →
      (∀ l ∈ rest, '\n' ∉ l) →
      splitOnChar '\n' (joinWith '\n' (x :: rest) ++ ['\n']) = (x :: rest) ++ [[]] := by
  intro rest
  induction rest with
  | nil =>
    intro x hx _
    simp only [joinWith]
    rw [show (x ++ ['\n'] : List Char) = x ++ '\n' :: [] from rfl,
      splitOnChar_append_sep '\n' x [] hx]
    rfl
  | cons y rest2 ih =>
    intro x hx hrest
    simp only [joinWith]
    rw [List.append_assoc, List.cons_append]
    rw [splitOnChar_append_sep '\n' x _ hx]
    rw [ih y (hrest y (List.mem_cons_self y rest2))
      (fun l hl => hrest l (List.mem_cons_of_mem y hl))]
    rfl

/-- Helper: reading back a written tracked map recovers its lines, provided
they are non-empty as a list and newline-free. -/
theorem writeLines_splitlines (lines : List (List Char)) (hne : lines ≠ [])
    (hnl : ∀ l ∈ lines, '\n' ∉ l) :
    pySplitlines (writeLines lines) = lines := by
  obtain ⟨x, rest, rfl⟩ : ∃ x rest, lines = x :: rest := by
    cases lines with
    | nil => exact absurd rfl hne
    | cons x rest => exact ⟨x, rest, rfl⟩
  have hsplit := splitOnChar_join_newline rest x
    (hnl x (List.mem_cons_self x rest))
    (fun l hl => hnl l (List.mem_cons_of_mem x hl))
  unfold writeLines pySplitlines
  rw [hsplit]
  have hlast : ((x :: rest) ++ [[]]).getLast? = some ([] : List Char) := by
    rw [List.getLast?_append]
    rfl
  rw [hlast]
  exact List.dropLast_concat ..

/-- Helper: every list is a literal prefix of itself extended. -/
theorem isPre_append (a b : List Char) : isPre a (a ++ b) = true := by
  induction a with
  | nil => rfl
  | cons c t ih => simp [isPre, ih]

/-- Helper: the upsert line is the removal prefix followed by the id. -/
theorem mkClaudeLine_eq (s p i : List Char) :
    mkClaudeLine s p i = upsertPre s p ++ i := by
  simp [mkClaudeLine, upsertPre, List.append_assoc]

/-- Helper: the line written by upsert parses back to its three fields when
the pane id and tracking id are colon-free and the fields are non-empty,
trimmed and not comment-like. -/
theorem parse_mkClaudeLine (s p i : List Char) (hs : s ≠ []) (hp : p ≠ []) (hi : i ≠ [])
    (hpc : ':' ∉ p) (hic : ':' ∉ i)
    (hshead : ∀ ch, s.head? = some ch → isPySpace ch = false ∧ ch ≠ '#')
    (hilast : ∀ ch, i.getLast? = some ch → isPySpace ch = false) :
    parseClaudeLine (mkClaudeLine s p i) = some (s, p, i) := by
  obtain ⟨c, s', rfl⟩ : ∃ c s', s = c :: s' := by
    cases s with
    | nil => exact absurd rfl hs
    | cons c s' => exact ⟨c, s', rfl⟩
  have hhead : (mkClaudeLine (c :: s') p i).head? = some c := rfl
  have hlasti : (mkClaudeLine (c :: s') p i).getLast? = i.getLast? := by
    rw [mkClaudeLine_eq, List.getLast?_append]
    cases hgl : i.getLast? with
    | none =>
      exact absurd (List.getLast?_eq_none_iff.mp hgl) hi
    | some ch => rfl
  have hstrip : pyStrip (mkClaudeLine (c :: s') p i) = mkClaudeLine (c :: s') p i := by
    refine pyStrip_eq_self _ ?_ ?_
    · intro ch hch
      rw [hhead] at hch
      cases hch
      exact (hshead c rfl).1
    · intro ch hch
      rw [hlasti] at hch
      exact hilast ch hch
  unfold parseClaudeLine
  rw [hstrip]
  rw [if_neg (by simp [mkClaudeLine])]
  rw [if_neg (by
    simp only [hhead, Option.some.injEq]
    exact (hshead c rfl).2)]
  have hr : rsplit2 ':' (mkClaudeLine (c :: s') p i) = [c :: s', p, i] :=
    rsplit2_of_parts (c :: s') p i hpc hic
  rw [hr]
  show (if c :: s' = [] ∨ p = [] ∨ i = [] then none
        else some (c :: s', p, i)) = some (c :: s', p, i)
  rw [if_neg (by simp [hp, hi])]

/-- C5 counterexample: starting from the prior content
`"a:b:c:u\n a:b:w\n"`, running `upsert("a","b","i1")` and then
`upsert("a","b","i2")` leaves two lines that parse to pane `("a","b")` (the
kept line `" a:b:w"` parses to it after stripping), not exactly one; and the
prior line for the distinct pane `("a:b","c")` is removed because its raw text
begins with `"a:b:"`. -/
theorem c5_counterexample :
    ((pySplitlines (upsertContent
        (some (upsertContent (some ("a:b:c:u\n a:b:w\n".toList))
          "a".toList "b".toList "i1".toList))
        "a".toList "b".toList "i2".toList)).countP
      (fun l => (parseClaudeLine l).map (fun e => (e.1, e.2.1))
          == some ("a".toList, "b".toList)) = 2)
    ∧ ((pySplitlines ("a:b:c:u\n a:b:w\n".toList)).countP
      (fun l => (parseClaudeLine l).map (fun e => (e.1, e.2.1))
          == some ("a:b".toList, "c".toList)) = 1)
    ∧ ((pySplitlines (upsertContent
        (some (upsertContent (some ("a:b:c:u\n a:b:w\n".toList))
          "a".toList "b".toList "i1".toList))
        "a".toList "b".toList "i2".toList)).countP
      (fun l => (parseClaudeLine l).map (fun e => (e.1, e.2.1))
          == some ("a:b".toList, "c".toList)) = 0) := by
  refine ⟨?_, ?_, ?_⟩ <;> decide

/-- C5 (amended): consecutive upserts for the same `(session, paneId)` with
colon-free, newline-free, trimmed pane id and tracking id leave, among the
surviving lines, exactly the prior non-blank lines whose raw text does not
begin with the literal prefix `session:paneId:`, followed by the single new
line, which is the only surviving line bearing that literal prefix and parses
back to `(s, p, id2)`.  (A prior line for a different pane whose raw text
begins with the prefix is removed, and a prior line that parses to `(s, p)`
only after stripping survives — see the counterexample.) -/
theorem c5_upsert_idem (c0 : Option (List Char)) (s p i1 i2 : List Char)
    (hs : s ≠ []) (hp : p ≠ []) (hi2 : i2 ≠ [])
    (hsn : '\n' ∉ s) (hpn : '\n' ∉ p) (hin1 : '\n' ∉ i1) (hin2 : '\n' ∉ i2)
    (hpc : ':' ∉ p) (hic : ':' ∉ i2)
    (hshead : ∀ ch, s.head? = some ch → isPySpace ch = false ∧ ch ≠ '#')
    (hilast : ∀ ch, i2.getLast? = some ch → isPySpace ch = false) :
    pySplitlines (upsertContent (some (upsertContent c0 s p i1)) s p i2)
        = ((linesOfContent c0).filter fun l =>
            !(pyStrip l).isEmpty && !(isPre (upsertPre s p) l)) ++ [mkClaudeLine s p i2]
    ∧ (pySplitlines (upsertContent (some (upsertContent c0 s p i1)) s p i2)).filter
          (fun l => isPre (upsertPre s p) l)
        = [mkClaudeLine s p i2]
    ∧ parseClaudeLine (mkClaudeLine s p i2) = some (s, p, i2) := by
  have hnl0 : ∀ l ∈ linesOfContent c0, '\n' ∉ l := by
    cases c0 with
    | none => intro l hl; simp [linesOfContent] at hl
    | some c => exact pySplitlines_mem_no_newline c
  have hmkline : ∀ i : List Char, '\n' ∉ i → '\n' ∉ mkClaudeLine s p i := by
    intro i hin hmem
    simp only [mkClaudeLine, List.mem_append, List.mem_cons] at hmem
    rcases hmem with (h | h | h) | (h | h)
    · exact hsn h
    · exact absurd h (by decide)
    · exact hpn h
    · exact absurd h (by decide)
    · exact hin h
  have hL1nl : ∀ l ∈ upsertLines (linesOfContent c0) s p i1, '\n' ∉ l := by
    intro l hl
    rcases List.mem_append.mp hl with h | h
    · exact hnl0 l (List.mem_of_mem_filter h)
    · rw [List.mem_singleton.mp h]
      exact hmkline i1 hin1
  have hA : pySplitlines (upsertContent c0 s p i1)
      = upsertLines (linesOfContent c0) s p i1 := by
    unfold upsertContent
    exact writeLines_splitlines _ (by simp [upsertLines]) hL1nl
  have hL2nl : ∀ l ∈ upsertLines (upsertLines (linesOfContent c0) s p i1) s p i2,
      '\n' ∉ l := by
    intro l hl
    rcases List.mem_append.mp hl with h | h
    · exact hL1nl l (List.mem_of_mem_filter h)
    · rw [List.mem_singleton.mp h]
      exact hmkline i2 hin2
  have hB : pySplitlines (upsertContent (some (upsertContent c0 s p i1)) s p i2)
      = upsertLines (upsertLines (linesOfContent c0) s p i1) s p i2 := by
    have h1 : upsertContent (some (upsertContent c0 s p i1)) s p i2
        = writeLines (upsertLines (pySplitlines (upsertContent c0 s p i1)) s p i2) := rfl
    rw [h1, hA]
    exact writeLines_splitlines _ (by simp [upsertLines]) hL2nl
  have hline1pre : isPre (upsertPre s p) (mkClaudeLine s p i1) = true := by
    rw [mkClaudeLine_eq]
    exact isPre_append ..
  have hline2pre : isPre (upsertPre s p) (mkClaudeLine s p i2) = true := by
    rw [mkClaudeLine_eq]
    exact isPre_append ..
  have hstruct : upsertLines (upsertLines (linesOfContent c0) s p i1) s p i2
      = ((linesOfContent c0).filter fun l =>
          !(pyStrip l).isEmpty && !(isPre (upsertPre s p) l)) ++ [mkClaudeLine s p i2] := by
    show ((((linesOfContent c0).filter _) ++ [mkClaudeLine s p i1]).filter _)
        ++ [mkClaudeLine s p i2] = _
    rw [List.filter_append]
    have hone : List.filter
        (fun l => !(pyStrip l).isEmpty && !(isPre (upsertPre s p) l))
        [mkClaudeLine s p i1] = [] := by
      simp [List.filter, hline1pre]
    rw [hone, List.append_nil, List.filter_filter]
    congr 1
    apply List.filter_congr
    intro a _
    cases h1 : (pyStrip a).isEmpty <;> cases h2 : isPre (upsertPre s p) a <;>
      simp [h1, h2]
  refine ⟨?_, ?_, parse_mkClaudeLine s p i2 hs hp hi2 hpc hic hshead hilast⟩
  · rw [hB, hstruct]
  · rw [hB, hstruct, List.filter_append]
    have hone2 : List.filter (fun l => isPre (upsertPre s p) l)
        [mkClaudeLine s p i2] = [mkClaudeLine s p i2] := by
      simp [List.filter, hline2pre]
    rw [hone2, List.filter_filter]
    have : List.filter
        (fun a => isPre (upsertPre s p) a
          && (!(pyStrip a).isEmpty && !(isPre (upsertPre s p) a)))
        (linesOfContent c0) = [] := by
      rw [List.filter_congr (q := fun _ => false) ?_]
      · exact List.filter_false _
      · intro a _
        cases h1 : (pyStrip a).isEmpty <;> cases h2 : isPre (upsertPre s p) a <;>
          simp [h1, h2]
    rw [this]
    rfl

/-- Witness for the amended C5: a prior content with one unrelated line; after
two upserts for pane `("a","b")` the file holds that line followed by the
single fresh line `a:b:u2`. -/
theorem c5_upsert_idem_witness :
    pySplitlines (upsertContent
        (some (upsertContent (some ("x:y:z\n".toList)) "a".toList "b".toList "u1".toList))
        "a".toList "b".toList "u2".toList)
      = ["x:y:z".toList, mkClaudeLine "a".toList "b".toList "u2".toList] := by
  have h := (c5_upsert_idem (some ("x:y:z\n".toList)) "a".toList "b".toList
    "u1".toList "u2".toList
    (by decide) (by decide) (by decide) (by decide) (by decide) (by decide)
    (by decide) (by decide) (by decide)
    (by intro ch hch; injection hch with h; subst h; decide)
    (by intro ch hch; injection hch with h; subst h; decide)).1
  rw [h]
  decide

/-! ## Claim C1: save / load round trip -/

/-- Semantic identity of one assigned window:
`(session, name, path, ordinal)`. -/
def identsOf (l : List (String × Window)) : List (String × String × String × Nat) :=
  l.map fun e => (e.1, e.2.name, e.2.path, e.2.ordinal)

/-- Identities of all windows of a live layout, with ordinals computed by the
save engine's assignment rule.  Two layouts with equal `windowsIdent` agree on
the `(session, name, path)` multiset and on every window's ordinal. -/
def windowsIdent (w : World) : List (String × String × String × Nat) :=
  identsOf (assignOrdinals (fun _ => 0) (listWindowsAllW w))

/-- Live windows created by the load loop after the first one: consecutive
indices past `base`, fresh window ids from `nid`. -/
def newWins (base : Int) (nid : Nat) : List Window → List LiveWindow
  | [] => []
  | u :: us => ⟨1 + base, u.name, u.path, "", widName nid⟩ :: newWins (1 + base) (nid + 1) us

/-- Helper: `find?` across earlier sessions whose names all differ. -/
theorem find?_session_append (n : String) :
    ∀ (pre rest : List LiveSession),
      (∀ u ∈ pre, (u.name == n) = false) →
      (pre ++ rest).find? (fun s => s.name == n) = rest.find? (fun s => s.name == n) := by
  intro pre
  induction pre with
  | nil => intro rest _; rfl
  | cons t ts ih =>
    intro rest hpre
    rw [List.cons_append, List.find?_cons_of_neg _ (by
      simp [hpre t (List.mem_cons_self t ts)])]
    exact ih rest fun u hu => hpre u (List.mem_cons_of_mem t hu)

/-- Helper: a name-keyed session update leaves earlier sessions with other
names untouched. -/
theorem map_update_append (n : String) (f : LiveSession → LiveSession) :
    ∀ (pre rest : List LiveSession),
      (∀ u ∈ pre, (u.name == n) = false) →
      (pre ++ rest).map (fun t => if t.name == n then f t else t)
        = pre ++ rest.map (fun t => if t.name == n then f t else t) := by
  intro pre
  induction pre with
  | nil => intro rest _; rfl
  | cons t ts ih =>
    intro rest hpre
    simp only [List.cons_append, List.map_cons]
    rw [if_neg (by simp [hpre t (List.mem_cons_self t ts)])]
    rw [ih rest fun u hu => hpre u (List.mem_cons_of_mem t hu)]

/-- Helper: appending one window moves the maximal index up as expected. -/
theorem maxIdx_append (W : List LiveWindow) (x : LiveWindow) :
    maxIdx (W ++ [x]) = max (maxIdx W) x.index := by
  unfold maxIdx
  rw [List.foldl_append]
  rfl

/-- Helper: the window loop of `load` past the first window always succeeds
and appends exactly the remaining recorded windows, in order, at consecutive
indices past the current maximum. -/
theorem loadWindows_rest (cm : String → String → String → Nat → Option String)
    (sessName : String) :
    ∀ (us : List Window) (pre : List LiveSession) (W : List LiveWindow) (nid : Nat)
      (occ : String × String → Nat),
      (∀ t ∈ pre, (t.name == sessName) = false) →
      ∃ tr, loadWindows cm sessName occ false ⟨pre ++ [⟨sessName, W⟩], nid⟩ us
        = .ok (⟨pre ++ [⟨sessName, W ++ newWins (maxIdx W) nid us⟩], nid + us.length⟩, tr) := by
  intro us
  induction us with
  | nil =>
    intro pre W nid occ hpre
    exact ⟨[], by simp [loadWindows, newWins]⟩
  | cons u us ih =>
    intro pre W nid occ hpre
    have hfind : (pre ++ [⟨sessName, W⟩] : List LiveSession).find?
        (fun s => s.name == sessName) = some ⟨sessName, W⟩ := by
      rw [find?_session_append sessName pre _ hpre]
      simp [List.find?_cons]
    have hnw : newWindowW ⟨pre ++ [⟨sessName, W⟩], nid⟩ sessName u.name u.path
        = some (⟨pre ++ [⟨sessName, W ++ [⟨1 + maxIdx W, u.name, u.path, "", widName nid⟩]⟩],
                 nid + 1⟩, widName nid) := by
      unfold newWindowW
      rw [hfind]
      simp only [Option.some.injEq, Prod.mk.injEq, World.mk.injEq]
      refine ⟨⟨?_, by trivial⟩, by trivial⟩
      rw [map_update_append sessName _ pre _ hpre]
      simp
    have hmax : maxIdx (W ++ [⟨1 + maxIdx W, u.name, u.path, "", widName nid⟩])
        = 1 + maxIdx W := by
      rw [maxIdx_append]
      exact max_eq_right (by show maxIdx W ≤ 1 + maxIdx W; omega)
    obtain ⟨tr', htr'⟩ := ih pre (W ++ [⟨1 + maxIdx W, u.name, u.path, "", widName nid⟩])
      (nid + 1) (fun k => if k = (u.name, u.path) then occ (u.name, u.path) + 1 else occ k)
      hpre
    rw [hmax] at htr'
    have hwins : W ++ newWins (maxIdx W) nid (u :: us)
        = (W ++ [⟨1 + maxIdx W, u.name, u.path, "", widName nid⟩])
            ++ newWins (1 + maxIdx W) (nid + 1) us := by
      rw [newWins, List.append_assoc]
      rfl
    have hlen : nid + (u :: us).length = nid + 1 + us.length := by
      rw [List.length_cons]
      omega
    cases hcm : cm sessName u.name u.path (occ (u.name, u.path)) with
    | none =>
      refine ⟨Cmd.newWindowC sessName u.name u.path :: tr', ?_⟩
      rw [hwins, hlen]
      unfold loadWindows
      simp [hnw, hcm, htr']
    | some uuid =>
      refine ⟨Cmd.newWindowC sessName u.name u.path ::
        Cmd.sendResumeC (widName nid) uuid :: tr', ?_⟩
      rw [hwins, hlen]
      unfold loadWindows
      simp [hnw, hcm, htr']

/-- Helper: processing one recorded session against a world that does not
contain it creates the session and its windows in recorded order: the first
window at index 0, the rest at consecutive indices; the resume branch cannot
fail when a nonzero first-window index implies no ordinal-0 binding for it. -/
theorem loadSessionFull_fresh (cm : String → String → String → Nat → Option String)
    (sess : Session) (pre : List LiveSession) (nid : Nat) (u : Window) (us : List Window)
    (hsort : List.insertionSort wleS sess.windows = u :: us)
    (hpre : ∀ t ∈ pre, (t.name == sess.name) = false)
    (hcond : u.index ≠ 0 → cm sess.name u.name u.path 0 = none) :
    ∃ tr, loadSessionFull cm sess ⟨pre, nid⟩
      = .ok (⟨pre ++ [⟨sess.name,
              (⟨0, u.name, u.path, "", widName nid⟩ : LiveWindow) :: newWins 0 (nid + 1) us⟩],
             nid + 1 + us.length⟩, tr) := by
  have hhas : hasSessionW ⟨pre, nid⟩ sess.name = false := by
    unfold hasSessionW
    rw [List.any_eq_false]
    intro t ht
    simp [hpre t ht]
  have hcs : createSessionIfNeeded ⟨pre, nid⟩ sess.name u.name u.path
      = (⟨pre ++ [⟨sess.name, [⟨0, u.name, u.path, "", widName nid⟩]⟩], nid + 1⟩,
         [Cmd.newSessionC sess.name u.name u.path]) := by
    unfold createSessionIfNeeded
    rw [hhas]
    rfl
  have hfind1 : (pre ++ [⟨sess.name, [⟨0, u.name, u.path, "", widName nid⟩]⟩] :
      List LiveSession).find? (fun s => s.name == sess.name)
      = some ⟨sess.name, [⟨0, u.name, u.path, "", widName nid⟩]⟩ := by
    rw [find?_session_append sess.name pre _ hpre]
    simp [List.find?_cons]
  have hlwi : listWindowIndicesW
      ⟨pre ++ [⟨sess.name, [⟨0, u.name, u.path, "", widName nid⟩]⟩], nid + 1⟩ sess.name
      = some [0] := by
    unfold listWindowIndicesW
    rw [hfind1]
    rfl
  have hren : renameWindowW
      ⟨pre ++ [⟨sess.name, [⟨0, u.name, u.path, "", widName nid⟩]⟩], nid + 1⟩
      sess.name 0 u.name
      = ⟨pre ++ [⟨sess.name, [⟨0, u.name, u.path, "", widName nid⟩]⟩], nid + 1⟩ := by
    unfold renameWindowW
    simp only [World.mk.injEq, and_true]
    rw [map_update_append sess.name _ pre _ hpre]
    simp
  have hcd : sendCdW
      ⟨pre ++ [⟨sess.name, [⟨0, u.name, u.path, "", widName nid⟩]⟩], nid + 1⟩
      sess.name 0 u.path
      = ⟨pre ++ [⟨sess.name, [⟨0, u.name, u.path, "", widName nid⟩]⟩], nid + 1⟩ := by
    unfold sendCdW
    simp only [World.mk.injEq, and_true]
    rw [map_update_append sess.name _ pre _ hpre]
    simp
  obtain ⟨tr', htr'⟩ := loadWindows_rest cm sess.name us pre
    [⟨0, u.name, u.path, "", widName nid⟩] (nid + 1)
    (fun k => if k = (u.name, u.path) then 0 + 1 else 0) hpre
  have hm0 : maxIdx [(⟨0, u.name, u.path, "", widName nid⟩ : LiveWindow)] = 0 := by
    norm_num [maxIdx]
  rw [hm0] at htr'
  have hwid0 : windowIdForW
      ⟨pre ++ [⟨sess.name, [⟨0, u.name, u.path, "", widName nid⟩]⟩], nid + 1⟩
      sess.name u.index
      = if (0 : Int) = u.index then some (widName nid) else none := by
    unfold windowIdForW
    rw [hfind1]
    by_cases h : (0 : Int) = u.index
    · simp [List.find?_cons, h]
    · simp [List.find?_cons, h]
  unfold loadSessionFull
  simp only [hsort, hcs, hlwi, hren, hcd,
    show ([(0 : Int)] : List Int).min? = some 0 from rfl]
  by_cases hu : u.index = 0
  · have hwid : windowIdForW
        ⟨pre ++ [⟨sess.name, [⟨0, u.name, u.path, "", widName nid⟩]⟩], nid + 1⟩
        sess.name u.index = some (widName nid) := by
      rw [hwid0, if_pos hu.symm]
    cases hcm2 : cm sess.name u.name u.path 0 with
    | none =>
      refine ⟨[Cmd.newSessionC sess.name u.name u.path,
        Cmd.renameWindowC sess.name 0 u.name, Cmd.sendCdC sess.name 0 u.path] ++ tr', ?_⟩
      unfold loadWindows
      simp [hwid, hcm2, htr']
    | some uuid =>
      refine ⟨[Cmd.newSessionC sess.name u.name u.path,
        Cmd.renameWindowC sess.name 0 u.name, Cmd.sendCdC sess.name 0 u.path]
          ++ Cmd.sendResumeC (widName nid) uuid :: tr', ?_⟩
      unfold loadWindows
      simp [hwid, hcm2, htr']
  · have hcm2 : cm sess.name u.name u.path 0 = none := hcond hu
    refine ⟨[Cmd.newSessionC sess.name u.name u.path,
      Cmd.renameWindowC sess.name 0 u.name, Cmd.sendCdC sess.name 0 u.path] ++ tr', ?_⟩
    unfold loadWindows
    simp [hwid0, hcm2, htr']

/-- Live sessions produced by running the load session loop on a fresh
server: one per recorded non-empty session, first window at index 0, the
remaining recorded windows (in ascending recorded order) at indices 1, 2, …,
window ids drawn consecutively. -/
def rebuiltSessions (nid : Nat) : List Session → List LiveSession
  | [] => []
  | sess :: rest =>
    if sess.windows = [] then rebuiltSessions nid rest
    else
      match List.insertionSort wleS sess.windows with
      | [] => rebuiltSessions nid rest
      | u :: us =>
        ⟨sess.name, ⟨0, u.name, u.path, "", widName nid⟩ :: newWins 0 (nid + 1) us⟩
          :: rebuiltSessions (nid + 1 + us.length) rest

/-- Helper: the session loop of `load` against a world containing none of the
recorded sessions succeeds and appends exactly the rebuilt sessions. -/
theorem loadSessionsGo_fresh (cm : String → String → String → Nat → Option String) :
    ∀ (sessions : List Session) (pre : List LiveSession) (nid : Nat),
      (∀ t ∈ pre, ∀ sess ∈ sessions, (t.name == sess.name) = false) →
      List.Pairwise (fun a b : Session => a.name ≠ b.name) sessions →
      (∀ sess ∈ sessions, ∀ u us, List.insertionSort wleS sess.windows = u :: us →
        u.index ≠ 0 → cm sess.name u.name u.path 0 = none) →
      ∃ tr nid2, loadSessionsGo cm sessions ⟨pre, nid⟩
        = .ok (⟨pre ++ rebuiltSessions nid sessions, nid2⟩, tr) := by
  intro sessions
  induction sessions with
  | nil =>
    intro pre nid _ _ _
    exact ⟨[], nid, by simp [loadSessionsGo, rebuiltSessions]⟩
  | cons sess rest ih =>
    intro pre nid hpre hnd hcond
    by_cases hw : sess.windows = []
    · obtain ⟨tr, nid2, h⟩ := ih pre nid
        (fun t ht s hs => hpre t ht s (List.mem_cons_of_mem _ hs)) hnd.of_cons
        (fun s hs => hcond s (List.mem_cons_of_mem _ hs))
      refine ⟨tr, nid2, ?_⟩
      rw [loadSessionsGo, if_pos hw, h]
      rw [rebuiltSessions, if_pos hw]
    · obtain ⟨u, us, hsort⟩ : ∃ u us, List.insertionSort wleS sess.windows = u :: us := by
        cases hcase : List.insertionSort wleS sess.windows with
        | nil =>
          have hperm := List.perm_insertionSort wleS sess.windows
          rw [hcase] at hperm
          exact absurd hperm.symm.eq_nil hw
        | cons u us => exact ⟨u, us, rfl⟩
      obtain ⟨tr1, h1⟩ := loadSessionFull_fresh cm sess pre nid u us hsort
        (fun t ht => hpre t ht sess (List.mem_cons_self ..))
        (hcond sess (List.mem_cons_self ..) u us hsort)
      obtain ⟨tr2, nid2, h2⟩ := ih
        (pre ++ [⟨sess.name, ⟨0, u.name, u.path, "", widName nid⟩ :: newWins 0 (nid + 1) us⟩])
        (nid + 1 + us.length)
        (by
          intro t ht s hs
          rcases List.mem_append.mp ht with h | h
          · exact hpre t h s (List.mem_cons_of_mem _ hs)
          · rw [List.mem_singleton.mp h]
            have hne := (List.pairwise_cons.mp hnd).1 s hs
            simp [hne])
        hnd.of_cons
        (fun s hs => hcond s (List.mem_cons_of_mem _ hs))
      refine ⟨tr1 ++ tr2, nid2, ?_⟩
      rw [loadSessionsGo, if_neg hw]
      simp only [h1, h2]
      rw [rebuiltSessions, if_neg hw]
      simp only [hsort]
      rw [List.append_assoc]
      rfl

/-- Rows one live session contributes to `list-windows -a` output. -/
def blockOf (s : LiveSession) : List (String × Int × String × String) :=
  (List.insertionSort wleL s.windows).map fun win => (s.name, win.index, win.name, win.path)

/-- Helper: the global listing is the concatenation of the session blocks. -/
theorem listWindowsAllW_blockOf (w : World) :
    listWindowsAllW w = w.sessions.flatMap blockOf := rfl

/-- Helper: every row of a session block carries that session's name. -/
theorem blockOf_session (s : LiveSession) : ∀ r ∈ blockOf s, r.1 = s.name := by
  intro r hr
  obtain ⟨win, _, rfl⟩ := List.mem_map.mp hr
  rfl

/-- Helper: with distinct session names, restricting the global listing to
one session's rows recovers exactly that session's block. -/
theorem flat_rows_filter :
    ∀ (ls : List LiveSession) (s : LiveSession), s ∈ ls →
      (ls.map (·.name)).Nodup →
      (ls.flatMap blockOf).filter (fun r => r.1 == s.name) = blockOf s := by
  intro ls
  induction ls with
  | nil => intro s hs; exact absurd hs (List.not_mem_nil s)
  | cons t rest ih =>
    intro s hs hnd
    have hnotin : t.name ∉ rest.map (·.name) := (List.nodup_cons.mp hnd).1
    rw [List.flatMap_cons, List.filter_append]
    rcases List.mem_cons.mp hs with rfl | hmem
    · have h1 : (blockOf s).filter (fun r => r.1 == s.name) = blockOf s := by
        rw [List.filter_eq_self]
        intro r hr
        simp [blockOf_session s r hr]
      have h2 : (rest.flatMap blockOf).filter (fun r => r.1 == s.name) = [] := by
        rw [List.filter_eq_nil_iff]
        intro r hr
        obtain ⟨t', ht', hrt'⟩ := List.mem_flatMap.mp hr
        rw [blockOf_session t' r hrt']
        intro hbeq
        exact hnotin (beq_iff_eq.mp hbeq ▸ List.mem_map_of_mem (·.name) ht')
      rw [h1, h2, List.append_nil]
    · have h1 : (blockOf t).filter (fun r => r.1 == s.name) = [] := by
        rw [List.filter_eq_nil_iff]
        intro r hr
        rw [blockOf_session t r hr]
        intro hbeq
        exact hnotin (beq_iff_eq.mp hbeq ▸ List.mem_map_of_mem (·.name) hmem)
      rw [h1, List.nil_append]
      exact ih s hmem (List.nodup_cons.mp hnd).2

/-- Helper: ordinal assignment preserves the name/path sequence. -/
theorem assign_names_paths (l : List (String × Int × String × String)) (cnt : OrdKey → Nat) :
    (assignOrdinals cnt l).map (fun e => (e.2.name, e.2.path))
      = l.map fun r => (r.2.2.1, r.2.2.2) := by
  have h := congrArg (List.map fun q : String × Int × String × String => (q.2.2.1, q.2.2.2))
    (assign_shape l cnt)
  simpa [List.map_map, Function.comp] using h

/-- Helper: with distinct session names, the per-session window list built by
`save` is the ordinal assignment of that session's own block. -/
theorem sessWindows_blockOf (w : World) (hnd : (listSessionsW w).Nodup)
    (s : LiveSession) (hs : s ∈ w.sessions) :
    sessWindows (listWindowsAllW w) s.name
      = (assignOrdinals (fun _ => 0) (blockOf s)).map (·.2) := by
  unfold sessWindows
  rw [assign_session_filter s.name _ (fun _ => 0) (fun _ => 0) (fun _ _ => rfl)]
  rw [listWindowsAllW_blockOf]
  rw [flat_rows_filter w.sessions s hs hnd]

/-- Helper: windows assigned from index-sorted rows are index-sorted. -/
theorem assign_windows_sorted (l : List (String × Int × String × String))
    (cnt : OrdKey → Nat) (hl : (l.map fun r => r.2.1).Pairwise (· ≤ ·)) :
    List.Sorted wleS ((assignOrdinals cnt l).map (·.2)) := by
  have hidx := assign_indices l cnt
  have hpw : ((assignOrdinals cnt l).map (fun e => e.2.index)).Pairwise (· ≤ ·) := by
    rw [hidx]; exact hl
  rw [List.pairwise_map] at hpw
  rw [List.Sorted, List.pairwise_map]
  exact hpw

/-- Helper: the indices of a session block are nondecreasing. -/
theorem blockOf_indices_sorted (s : LiveSession) :
    ((blockOf s).map fun r => r.2.1).Pairwise (· ≤ ·) := by
  unfold blockOf
  rw [List.map_map]
  have hsorted : List.Sorted wleL (List.insertionSort wleL s.windows) :=
    List.sorted_insertionSort wleL s.windows
  rw [List.pairwise_map]
  exact hsorted

/-- Helper: window identities depend only on the row key sequence, not on the
indices. -/
theorem assign_idents_keyseq :
    ∀ (rows1 rows2 : List (String × Int × String × String)) (cnt : OrdKey → Nat),
      rows1.map rowKey = rows2.map rowKey →
      identsOf (assignOrdinals cnt rows1) = identsOf (assignOrdinals cnt rows2) := by
  intro rows1
  induction rows1 with
  | nil =>
    intro rows2 cnt hk
    have : rows2 = [] := by
      cases rows2 with
      | nil => rfl
      | cons r2 rest2 => exact absurd hk.symm (by simp)
    subst this
    rfl
  | cons r1 rest1 ih =>
    intro rows2 cnt hk
    cases rows2 with
    | nil => exact absurd hk (by simp)
    | cons r2 rest2 =>
      obtain ⟨s1, i1, n1, p1⟩ := r1
      obtain ⟨s2, i2, n2, p2⟩ := r2
      simp only [List.map_cons, List.cons.injEq] at hk
      have hkey : s1 = s2 ∧ n1 = n2 ∧ p1 = p2 := by
        have h := hk.1
        exact ⟨congrArg (fun q : OrdKey => q.1) h, congrArg (fun q : OrdKey => q.2.1) h,
          congrArg (fun q : OrdKey => q.2.2) h⟩
      obtain ⟨rfl, rfl, rfl⟩ := hkey
      simp only [assignOrdinals, identsOf, List.map_cons]
      exact congrArg (fun t => (s1, n1, p1, cnt (s1, n1, p1)) :: t) (ih rest2 _ hk.2)

/-- Helper: the windows created after the first are sorted by index and all
sit strictly past the base index. -/
theorem newWins_sorted_bound :
    ∀ (us : List Window) (base : Int) (nid : Nat),
      List.Sorted wleL (newWins base nid us)
      ∧ ∀ x ∈ newWins base nid us, base < x.index := by
  intro us
  induction us with
  | nil => intro base nid; exact ⟨List.sorted_nil, by simp [newWins]⟩
  | cons u us ih =>
    intro base nid
    obtain ⟨hsorted, hbound⟩ := ih (1 + base) (nid + 1)
    constructor
    · rw [newWins, List.Sorted, List.pairwise_cons]
      refine ⟨?_, hsorted⟩
      intro x hx
      show (1 : Int) + base ≤ x.index
      have := hbound x hx
      omega
    · intro x hx
      rw [newWins, List.mem_cons] at hx
      rcases hx with rfl | hx
      · show base < 1 + base
        omega
      · have := hbound x hx
        omega

/-- Helper: the created windows carry exactly the recorded names and paths. -/
theorem newWins_names :
    ∀ (us : List Window) (base : Int) (nid : Nat),
      (newWins base nid us).map (fun x => (x.name, x.path))
        = us.map fun u => (u.name, u.path) := by
  intro us
  induction us with
  | nil => intro base nid; rfl
  | cons u us ih =>
    intro base nid
    rw [newWins, List.map_cons, List.map_cons, ih]

/-- Helper: assignment is empty exactly on the empty row list. -/
theorem assign_eq_nil_iff (cnt : OrdKey → Nat) (l : List (String × Int × String × String)) :
    assignOrdinals cnt l = [] ↔ l = [] := by
  cases l with
  | nil => simp [assignOrdinals]
  | cons r rest =>
    obtain ⟨s, i, n, p⟩ := r
    simp [assignOrdinals]

/-- Helper: the rebuilt session block has the same row keys as the original
session block whenever the recorded window list chains back to the block's
ordinal assignment. -/
theorem rebuilt_keys_of_chain (sname : String) (u : Window) (us : List Window)
    (bs : List (String × Int × String × String))
    (hb : ∀ r ∈ bs, r.1 = sname)
    (hchain : (u :: us : List Window)
      = (assignOrdinals (fun _ => 0) bs).map (·.2)) :
    ∀ nid : Nat,
      (blockOf ⟨sname,
          ⟨0, u.name, u.path, "", widName nid⟩ :: newWins 0 (nid + 1) us⟩).map rowKey
        = bs.map rowKey := by
  intro nid
  have hsorted : List.Sorted wleL
      ((⟨0, u.name, u.path, "", widName nid⟩ : LiveWindow) :: newWins 0 (nid + 1) us) := by
    rw [List.Sorted, List.pairwise_cons]
    obtain ⟨hst, hbd⟩ := newWins_sorted_bound us 0 (nid + 1)
    exact ⟨fun x hx => le_of_lt (hbd x hx), hst⟩
  unfold blockOf
  rw [List.Sorted.insertionSort_eq hsorted, List.map_map]
  have hlhs : ((⟨0, u.name, u.path, "", widName nid⟩ : LiveWindow)
        :: newWins 0 (nid + 1) us).map
      (rowKey ∘ fun win =>
        ((⟨sname, ⟨0, u.name, u.path, "", widName nid⟩ :: newWins 0 (nid + 1) us⟩ :
            LiveSession).name, win.index, win.name, win.path))
      = ((⟨0, u.name, u.path, "", widName nid⟩ : LiveWindow)
          :: newWins 0 (nid + 1) us).map fun x => (sname, x.name, x.path) := by
    apply List.map_congr_left
    intro a _
    rfl
  rw [hlhs]
  have hnw : (newWins 0 (nid + 1) us).map (fun x => (sname, x.name, x.path))
      = us.map fun v => (sname, v.name, v.path) := by
    have h := congrArg (List.map fun np : String × String => (sname, np.1, np.2))
      (newWins_names us 0 (nid + 1))
    simpa [List.map_map, Function.comp] using h
  rw [List.map_cons, hnw]
  have hmid : ((u :: us : List Window).map fun v => (sname, v.name, v.path))
      = bs.map rowKey := by
    rw [hchain, List.map_map]
    have h := congrArg (List.map fun np : String × String => (sname, np.1, np.2))
      (assign_names_paths bs (fun _ => 0))
    rw [List.map_map, List.map_map] at h
    have h2 : bs.map ((fun np : String × String => (sname, np.1, np.2))
        ∘ fun r => (r.2.2.1, r.2.2.2)) = bs.map rowKey := by
      apply List.map_congr_left
      intro r hr
      show (sname, r.2.2.1, r.2.2.2) = rowKey r
      rw [show rowKey r = (r.1, r.2.2.1, r.2.2.2) from rfl, hb r hr]
    rw [← h2, ← h]
    apply List.map_congr_left
    intro e _
    rfl
  rw [show ((sname, u.name, u.path) :: us.map fun v => (sname, v.name, v.path))
      = (u :: us : List Window).map fun v => (sname, v.name, v.path) from rfl]
  exact hmid

/-- Helper: the rebuilt sessions contribute the same row-key stream as the
original sessions, given the per-session facts. -/
theorem rebuilt_flat_keys (g : LiveSession → Session) :
    ∀ (ls : List LiveSession) (nid : Nat),
      (∀ s ∈ ls, (g s).windows = [] → (blockOf s).map rowKey = []) →
      (∀ s ∈ ls, ∀ u us, ∀ nid' : Nat, List.insertionSort wleS (g s).windows = u :: us →
        (blockOf (⟨(g s).name,
            ⟨0, u.name, u.path, "", widName nid'⟩ :: newWins 0 (nid' + 1) us⟩ :
              LiveSession)).map rowKey
          = (blockOf s).map rowKey) →
      ((rebuiltSessions nid (ls.map g)).flatMap fun S => (blockOf S).map rowKey)
        = ls.flatMap fun s => (blockOf s).map rowKey := by
  intro ls
  induction ls with
  | nil => intro nid _ _; rfl
  | cons s rest ih =>
    intro nid h1 h2
    rw [List.map_cons, List.flatMap_cons]
    by_cases hgw : (g s).windows = []
    · rw [rebuiltSessions, if_pos hgw]
      rw [h1 s (List.mem_cons_self ..) hgw, List.nil_append]
      exact ih nid (fun t ht => h1 t (List.mem_cons_of_mem _ ht))
        (fun t ht => h2 t (List.mem_cons_of_mem _ ht))
    · obtain ⟨u, us, hsort⟩ : ∃ u us, List.insertionSort wleS (g s).windows = u :: us := by
        cases hcase : List.insertionSort wleS (g s).windows with
        | nil =>
          have hperm := List.perm_insertionSort wleS (g s).windows
          rw [hcase] at hperm
          exact absurd hperm.symm.eq_nil hgw
        | cons u us => exact ⟨u, us, rfl⟩
      rw [rebuiltSessions, if_neg hgw]
      simp only [hsort]
      rw [List.flatMap_cons]
      rw [h2 s (List.mem_cons_self ..) u us nid hsort]
      rw [ih (nid + 1 + us.length) (fun t ht => h1 t (List.mem_cons_of_mem _ ht))
        (fun t ht => h2 t (List.mem_cons_of_mem _ ht))]

/-- The recorded `Session` that `save` produces for one live session. -/
def saveSessionOf (w : World) (s : LiveSession) : Session :=
  ⟨s.name, List.insertionSort wleS (sessWindows (listWindowsAllW w) s.name)⟩

/-- C1 counterexample: a live layout whose session `s` starts at window index
1 (no window at index 0) with a tracked pane in its first window.  `save`
succeeds, recording the binding at ordinal 0, but `load` against the snapshot
aborts with an exception — `window_id_for` returns `None` for the recorded
first index against the freshly created session, and `send-keys` is invoked
with a `None` target — so the second window is never recreated and the
layout's `(session, name, path)` multiset is not reconstructed. -/
theorem c1_counterexample :
    (saveState ⟨[⟨"s", [⟨1, "n", "p", "%1", "@1"⟩, ⟨2, "m", "q", "%2", "@2"⟩]⟩], 0⟩
        [("s", "%1", "u1")] (none, none) "t").map
      (fun st => loadState st ⟨[], 0⟩ true true)
      = some (Except.error ()) := by
  rfl

/-- C1 (amended): for a live layout with distinct session names, if every
recorded session whose first (lowest-index) window sits at a nonzero index
has no recorded binding at ordinal 0 matching that window's `(name, path)`,
then running `load` on a fresh server against the snapshot `save` produced
succeeds and reconstructs a layout with exactly the same
`(session, window-name, path, ordinal)` stream of windows — in particular the
`(session, window-name, path)` multiset restricted to windows is preserved
and every window's ordinal is unchanged (window indices may differ). -/
theorem c1_roundtrip (w : World) (entries : List (String × String × String))
    (cur : Option String × Option Int) (now : String) (st : State)
    (h : saveState w entries cur now = some st)
    (hnd : (listSessionsW w).Nodup)
    (hfix : ∀ sess ∈ st.sessions, ∀ u us,
        List.insertionSort wleS sess.windows = u :: us → u.index ≠ 0 →
        claudeLookup st.claude sess.name u.name u.path 0 = none)
    (switchOk attachOk : Bool) :
    ∃ w' tr, loadState st ⟨[], 0⟩ switchOk attachOk = Except.ok (w', tr)
      ∧ windowsIdent w' = windowsIdent w := by
  unfold saveState at h
  by_cases hs0 : listSessionsW w = []
  · rw [if_pos hs0] at h
    exact absurd h (by simp)
  rw [if_neg hs0] at h
  simp only [Option.some.injEq] at h
  have hsess_eq : st.sessions = (listSessionsW w).map
      (fun s => (⟨s, List.insertionSort wleS (sessWindows (listWindowsAllW w) s)⟩ :
        Session)) := by
    rw [← h]
  have hmapg : st.sessions = w.sessions.map (saveSessionOf w) := by
    rw [hsess_eq]
    unfold listSessionsW
    rw [List.map_map]
    rfl
  have hsw : ∀ s ∈ w.sessions, sessWindows (listWindowsAllW w) s.name
      = (assignOrdinals (fun _ => 0) (blockOf s)).map (·.2) :=
    fun s hs => sessWindows_blockOf w hnd s hs
  have hsorted : ∀ s ∈ w.sessions,
      List.Sorted wleS (sessWindows (listWindowsAllW w) s.name) := by
    intro s hs
    rw [hsw s hs]
    exact assign_windows_sorted _ _ (blockOf_indices_sorted s)
  have hgwin : ∀ s ∈ w.sessions,
      (saveSessionOf w s).windows = sessWindows (listWindowsAllW w) s.name := by
    intro s hs
    show List.insertionSort wleS (sessWindows (listWindowsAllW w) s.name) = _
    exact List.Sorted.insertionSort_eq (hsorted s hs)
  have hpw : List.Pairwise (fun a b : Session => a.name ≠ b.name) st.sessions := by
    rw [hmapg, List.pairwise_map]
    have hnd' : List.Pairwise (· ≠ ·) (w.sessions.map (·.name)) := hnd
    rw [List.pairwise_map] at hnd'
    exact hnd'
  obtain ⟨tr, nid2, hgo⟩ := loadSessionsGo_fresh (claudeLookup st.claude) st.sessions [] 0
    (fun t ht => absurd ht (List.not_mem_nil t)) hpw
    (fun sess hs u us hsort hne0 => hfix sess hs u us hsort hne0)
  refine ⟨⟨rebuiltSessions 0 st.sessions, nid2⟩,
    tr ++ focusCmds st.current_session st.current_window_index switchOk attachOk, ?_, ?_⟩
  · unfold loadState
    rw [hgo]
    simp
  · unfold windowsIdent
    apply assign_idents_keyseq
    rw [listWindowsAllW_blockOf, listWindowsAllW_blockOf]
    show (((rebuiltSessions 0 st.sessions).flatMap blockOf).map rowKey)
      = ((w.sessions.flatMap blockOf).map rowKey)
    rw [List.map_flatMap, List.map_flatMap]
    rw [hmapg]
    apply rebuilt_flat_keys (saveSessionOf w) w.sessions 0
    · intro s hs hgw
      have h1 : sessWindows (listWindowsAllW w) s.name = [] := by
        rw [← hgwin s hs]
        exact hgw
      rw [hsw s hs] at h1
      have h2 : blockOf s = [] :=
        (assign_eq_nil_iff _ _).mp (List.map_eq_nil_iff.mp h1)
      rw [h2]
      rfl
    · intro s hs u us nid' hsort
      have hsid : List.insertionSort wleS (saveSessionOf w s).windows
          = sessWindows (listWindowsAllW w) s.name := by
        rw [hgwin s hs]
        exact List.Sorted.insertionSort_eq (hsorted s hs)
      have hchain : (u :: us : List Window)
          = (assignOrdinals (fun _ => 0) (blockOf s)).map (·.2) := by
        rw [← hsw s hs, ← hsid, hsort]
      exact rebuilt_keys_of_chain s.name u us (blockOf s) (blockOf_session s) hchain nid'

/-- Witness for the amended C1 at the specification's example layout: session
`main` with two `editor` windows at `/repo` and a tracked pane in the second;
`load` on a fresh server succeeds and the window-identity stream is
preserved. -/
theorem c1_roundtrip_witness :
    ∃ w' tr,
      loadState ⟨"t", [⟨"main", [⟨0, "editor", "/repo", 0⟩, ⟨1, "editor", "/repo", 1⟩]⟩],
          some "main", some 1, [⟨"main", "editor", "/repo", 1, "u1"⟩]⟩
        ⟨[], 0⟩ false false = Except.ok (w', tr)
      ∧ windowsIdent w'
          = windowsIdent ⟨[⟨"main", [⟨0, "editor", "/repo", "%1", "@1"⟩,
              ⟨1, "editor", "/repo", "%2", "@2"⟩]⟩], 0⟩ := by
  refine c1_roundtrip
    ⟨[⟨"main", [⟨0, "editor", "/repo", "%1", "@1"⟩, ⟨1, "editor", "/repo", "%2", "@2"⟩]⟩], 0⟩
    [("main", "%2", "u1")] (some "main", some 1) "t"
    ⟨"t", [⟨"main", [⟨0, "editor", "/repo", 0⟩, ⟨1, "editor", "/repo", 1⟩]⟩],
      some "main", some 1, [⟨"main", "editor", "/repo", 1, "u1"⟩]⟩
    rfl (by decide) ?_ false false
  intro sess hs u us hsort hne0
  have hsesseq : sess = ⟨"main", [⟨0, "editor", "/repo", 0⟩, ⟨1, "editor", "/repo", 1⟩]⟩ := by
    simpa using hs
  subst hsesseq
  have h2 : ([⟨0, "editor", "/repo", 0⟩, ⟨1, "editor", "/repo", 1⟩] : List Window)
      = u :: us := by
    rw [← hsort]
    rfl
  have h3 : u = ⟨0, "editor", "/repo", 0⟩ := by
    injection h2 with h4 _
    exact h4.symm
  rw [h3] at hne0
  exact absurd rfl hne0

end Dotfiles
